import Mathlib

/-!
# sql_parser_tests: oracles and the prediction pipeline

A shallow embedding of

* `pkg/oracles/spec.go` (`Prediction`),
* `pkg/oracles/postgres/psql/oracle.go` (`startsWith`, `isInvalidCommand`,
  `hasUnrecognizedValue`, `hasSqlishSyntaxError`, `Oracle.Predict`),
* `pkg/oracles/postgres/doblock/oracle.go` (`testify`, `Oracle.Predict`),
* `pkg/corpus/read.go` (`Statement`, `GetStatementsByLanguage`),
* `scripts/predict/main.go` (`bulkPredict`: worker count, `save`, `sql`,
  `flush`, `predict`, `waitForDone`).

Go strings are byte sequences; they are embedded as lists of byte values.
What a routine gets from outside (the output of the `psql` process, the
driver oracle, the predictions a channel delivers, the scheduler's choices)
is an argument of its embedding.
-/

/-- A Go `string`: its sequence of bytes. -/
abbrev GoString := List Nat

/-- The bytes of a Go string literal (Go source text is UTF-8). -/
def utf8 (s : String) : GoString :=
  s.data.flatMap (fun c => (String.utf8EncodeChar c).map UInt8.toNat)

namespace oracles

/-- `oracles.Prediction`. `Valid` is a `*bool`: `none` is the nil pointer,
`some b` a pointer to `b`. -/
structure Prediction where
  Language : GoString
  Version : GoString
  Valid : Option Bool
  Message : GoString
  Error : GoString
  deriving DecidableEq, Repr

end oracles

namespace psql

open oracles

/-- `startsWith`: `len(str) >= len(prefix) && str[:len(prefix)] == prefix`. -/
def startsWith (str : GoString) (pre : GoString) : Bool :=
  decide (str.length ≥ pre.length) && (str.take pre.length == pre)

/-- `const invalidCommand`. -/
def invalidCommand : GoString := utf8 "invalid command"

/-- `isInvalidCommand`. -/
def isInvalidCommand (stderr : GoString) : Bool :=
  startsWith stderr invalidCommand

/-- `const unrecognizedValue`. -/
def unrecognizedValue : GoString := utf8 "unrecognized value"

/-- `hasUnrecognizedValue`. -/
def hasUnrecognizedValue (stderr : GoString) : Bool :=
  startsWith stderr unrecognizedValue

/-- Membership of a byte in the cutset `" \t"` of the `strings.TrimLeft` call. -/
def inCutset (b : Nat) : Bool := b == 32 || b == 9

/-- `strings.TrimLeft(s, " \t")`: the cutset is ASCII, so the leading bytes
that belong to it are removed. -/
def trimLeft (s : GoString) : GoString := s.dropWhile inCutset

/-- `hasSqlishSyntaxError`. -/
def hasSqlishSyntaxError (stderr : GoString) : Bool :=
  if !startsWith stderr (utf8 "ERROR:") then
    false
  else
    let stderr := trimLeft (stderr.drop (utf8 "ERROR:").length)
    startsWith stderr (utf8 "syntax error")

/-- The result of `cmd.Output()`: the captured standard output and, when the
command failed, the text of `err.Error()`. -/
structure ProbeResult where
  message : GoString
  err : Option GoString

/-- `(*Oracle).Predict`. `version` is the receiver's field; `probe` is the
run of `docker-compose exec -T psql --set=ON_ERROR_STOP=on` with the statement
on standard input. `Except.error` is the `(nil, error)` return, `Except.ok p`
the `(&p, nil)` return. -/
def Predict (version : GoString) (probe : GoString → ProbeResult)
    (statement : GoString) (language : GoString) : Except GoString Prediction :=
  if language ≠ utf8 "psql" then
    .error (utf8 "only accepts psql, not " ++ language)
  else
    let prediction : Prediction :=
      { Language := utf8 "psql", Version := version, Valid := none,
        Message := [], Error := [] }
    let out := probe statement
    match out.err with
    | none =>
      let prediction := { prediction with Error := [] }
      .ok { prediction with Message := out.message }
    | some stderr =>
      let prediction := { prediction with Error := stderr }
      let definitelyInvalid :=
        isInvalidCommand stderr || hasUnrecognizedValue stderr || hasSqlishSyntaxError stderr
      if definitelyInvalid then
        .ok { prediction with Valid := some false }
      else
        .ok prediction

/-- How a started command ended, as package `os/exec` reports it. -/
inductive CommandEnd where
  /-- The process exited with this status; `0` is success. -/
  | exited (status : Nat)
  /-- The process was ended by the signal of this name, such as `killed`. -/
  | signaled (signal : GoString)
  deriving DecidableEq

/-- A run of the command `docker-compose exec -T psql ...`: what the process
wrote on its standard output and standard error, and how it ended. -/
structure CommandRun where
  stdout : GoString
  stderr : GoString
  ending : CommandEnd

/-- `strconv.Itoa` on a number that is not negative. -/
def itoa (n : Nat) : GoString := utf8 (Nat.repr n)

/-- `(*os.ProcessState).String()` on Unix, which is what
`(*exec.ExitError).Error()` returns: `exit status N` for a process that
exited, `signal: NAME` for one ended by a signal. -/
def processStateString : CommandEnd → GoString
  | CommandEnd.exited status => utf8 "exit status " ++ itoa status
  | CommandEnd.signaled signal => utf8 "signal: " ++ signal

/-- `cmd.Output()` of package `os/exec` on a command that was started: it
returns the standard output and, unless the process exited with status `0`,
an `*exec.ExitError`. What the process wrote on standard error is kept in the
field `Stderr` of that error, which `Predict` does not read; the text of
`err.Error()` is that of the process state. -/
def cmdOutput (run : CommandRun) : ProbeResult :=
  match run.ending with
  | CommandEnd.exited 0 => { message := run.stdout, err := none }
  | ending => { message := run.stdout, err := some (processStateString ending) }

/-- The wording of the invalidity patterns in the specification: the text
begins with `invalid command`, or with `unrecognized value`, or with `ERROR:`
followed by spaces and tabs and then `syntax error`. -/
def SpecInvalidText (t : GoString) : Prop :=
  utf8 "invalid command" <+: t ∨ utf8 "unrecognized value" <+: t ∨
    ∃ ws rest, t = utf8 "ERROR:" ++ ws ++ utf8 "syntax error" ++ rest ∧
      ∀ b ∈ ws, b = 32 ∨ b = 9

end psql

namespace doblock

open oracles

/-- `testify`: wraps the statement in a `DO` block delimited by `SYNTAX_CHECK`
and hands it to the driver oracle's `Predict` (package `driver`, a parameter
here). -/
def testify (driverPredict : GoString → GoString → Prediction)
    (statement : GoString) (language : GoString) : Prediction :=
  let delim := utf8 "SYNTAX_CHECK"
  driverPredict
    (utf8 "DO $" ++ delim ++ utf8 "$BEGIN RETURN; " ++ statement ++ utf8 " END;$" ++ delim
      ++ utf8 "$;")
    language

/-- `(*Oracle).Predict`. A Go `switch` case does not fall through, so both
`"pgsql"` (empty case) and `"plpgsql"` (`break`) leave the switch and reach
the probe; every other language takes the `default` return. The result of the
`SET check_function_bodies = ON;` query is discarded by the source. -/
def Predict (driverPredict : GoString → GoString → Prediction)
    (statement : GoString) (language : GoString) : Except GoString Prediction :=
  if language = utf8 "pgsql" then
    .ok (testify driverPredict statement language)
  else if language = utf8 "plpgsql" then
    .ok (testify driverPredict statement language)
  else
    .error (utf8 "unsupported language " ++ language)

end doblock

namespace corpus

/-- `corpus.Statement`. -/
structure Statement where
  Id : Nat
  Text : GoString
  deriving DecidableEq

/-- One row the query yields (`rows.Next()` returned true), as the loop body
sees it: `row` is the value of the variable `row` after
`rows.Scan(&row.Id, &row.Text)`, which holds the scanned `Id` and `Text` when
the scan succeeds, and `err` is the error text when `Scan` returns an error. -/
structure ScannedRow where
  row : Statement
  err : Option GoString
  deriving DecidableEq

/-- The loop `for rows.Next()` of `GetStatementsByLanguage`, entered with the
value `results` has so far: `append(results, &row)` is run in the branch
`err != nil`. Every iteration declares a fresh `row`, so the pointers appended
are to distinct values. -/
def scanRows : List ScannedRow → List Statement → List Statement
  | [], results => results
  | r :: rest, results =>
    match r.err with
    | some _ => scanRows rest (results ++ [r.row])
    | none => scanRows rest results

/-- `GetStatementsByLanguage`. `query` is `db.Query(getStatementsByLanguage,
language)`: the rows it yields, or `none` when it returns an error, on which
`log.Fatal` ends the process and nothing is returned. -/
def GetStatementsByLanguage (query : GoString → Option (List ScannedRow))
    (language : GoString) : Option (List Statement) :=
  match query language with
  | none => none
  | some rows => some (scanRows rows [])

/-- The result the claim describes: in row order, the scanned statement of
every row whose `Scan` succeeds, and nothing for a row whose `Scan` fails. -/
def specStatements (rows : List ScannedRow) : List Statement :=
  (rows.filter (fun r => r.err.isNone)).map (fun r => r.row)

end corpus

namespace predict

/-! ### `bulkPredict`: the worker count -/

/-- The conversion `int(p)` of a `uint` value `p` (64-bit words): the bit
pattern is kept, so values from `2^63` on become negative. -/
def intOfUint (p : Nat) : Int :=
  if p % 2 ^ 64 < 2 ^ 63 then ((p % 2 ^ 64 : Nat) : Int) else ((p % 2 ^ 64 : Nat) : Int) - 2 ^ 64

/-- The `--parallelism` flag as `initConfig` stores it: `parallelism` stays
nil unless the parsed `uint` is positive. -/
def initParallelism (nGoRoutines : Nat) : Option Nat :=
  if nGoRoutines > 0 then some nGoRoutines else none

/-- The variable `nRoutines` of `bulkPredict` as it stands when the channels
are made. `numCPU` is `runtime.NumCPU()`, `nStatements` is `len(statements)`
and `parallelism` the `*uint` argument (`none` for nil). The products
`numCPU*2` and `3*numCPU` are exact, a CPU count being far from the bounds of
`int`; the conversion `int(*parallelism)` of the flag value is not, and
wraps. -/
def nRoutines (numCPU : Int) (nStatements : Int) (parallelism : Option Nat) : Int :=
  let nRoutines := numCPU * 2 - 1
  let nRoutines := if nStatements < nRoutines then nStatements - 1 else nRoutines
  let nRoutines := if nRoutines ≤ 0 then 2 else nRoutines
  match parallelism with
  | none => nRoutines
  | some p =>
    if p % 2 ^ 64 > 0 ∧ intOfUint p < 3 * numCPU then intOfUint p else nRoutines

/-! ### `bulkPredict`: the writer `save` -/

/-- Modelled from the spec: the type `corpus.Prediction` is not among the
sources; the specification gives a Prediction the fields `statementId`,
`oracleId`, `languageId`, `valid`, `message`, `error`, which are the six
fields `flush` reads. -/
structure Prediction where
  StatementId : Nat
  OracleId : Int
  LanguageId : Int
  Message : GoString
  Error : GoString
  Valid : Option Bool
  deriving DecidableEq

/-- A value passed to `insert.Exec` (an `interface{}`). -/
inductive Param where
  | num (n : Int)
  | text (s : GoString)
  | flag (b : Option Bool)
  deriving DecidableEq

/-- What the writer does to the outside world, in order. -/
inductive Event where
  /-- The call `db.Begin()`. -/
  | begin
  /-- The call `txn.Prepare(s)`. -/
  | prepare (s : GoString)
  /-- A prediction received from `outputs`. -/
  | recv (p : Prediction)
  /-- The call `bar.Increment()`. -/
  | increment
  /-- The call `insert.Exec(params...)` on the statement prepared from `stmt`. -/
  | exec (stmt : GoString) (params : List Param)
  /-- The call `txn.Commit()`. -/
  | commit
  deriving DecidableEq

/-- The closure `sql` of `save`. The loop `for i := 0; i < n-1; i++` runs
`n - 1` times, and not at all when `n` is `0`. -/
def sql (n : Nat) : GoString :=
  utf8 "INSERT INTO predictions"
    ++ utf8 "(statement_id, oracle_id, language_id, message, error, valid)"
    ++ utf8 " VALUES "
    ++ (List.replicate (n - 1) (utf8 "(?,?,?,?,?,?),")).flatten
    ++ utf8 "(?,?,?,?,?,?)"
    ++ utf8 " ON CONFLICT DO NOTHING"

/-- The six values `flush` appends for one prediction. -/
def rowParams (prediction : Prediction) : List Param :=
  [.num prediction.StatementId, .num prediction.OracleId, .num prediction.LanguageId,
   .text prediction.Message, .text prediction.Error, .flag prediction.Valid]

/-- The closure `flush` of `save`: builds `params` from `batch` and executes
the prepared `insert`. -/
def flush (insert : GoString) (batch : List Prediction) : List Event :=
  let params := batch.flatMap rowParams
  [.exec insert params]

/-- The receive loop of `save`, run on the predictions `outputs` delivers
before it is closed. Returns the events of the loop and the value of `batch`
when the loop is left. -/
def saveLoop (batchSize : Nat) (insert : GoString) (bar : Bool) :
    List Prediction → List Prediction → List Event × List Prediction
  | [], batch => ([], batch)
  | prediction :: rest, batch =>
    let inc := if bar then [Event.increment] else []
    let batch := batch ++ [prediction]
    if batch.length % batchSize = 0 then
      let r := saveLoop batchSize insert bar rest []
      (Event.recv prediction :: inc ++ flush insert batch ++ r.1, r.2)
    else
      let r := saveLoop batchSize insert bar rest batch
      (Event.recv prediction :: inc ++ r.1, r.2)

/-- The variable `batchSize` of `save`: `1000`, lowered to `len(statements)`
when the backlog is smaller. -/
def batchSize (nStatements : Nat) : Nat :=
  if nStatements < 1000 then nStatements else 1000

/-- The closure `save` of `bulkPredict`: `nStatements` is `len(statements)`
(positive here, `bulkPredict` returns before when it is `0`), `outputs` the
predictions received before the channel is closed, `bar` whether the progress
bar is non-nil. -/
def save (nStatements : Nat) (outputs : List Prediction) (bar : Bool) : List Event :=
  let batchSize := batchSize nStatements
  let insert := sql batchSize
  let r := saveLoop batchSize insert bar outputs []
  let batch := r.2
  [Event.begin, Event.prepare insert] ++ r.1
    ++ (if batch.length > 0 then
          Event.prepare (sql batch.length) :: flush (sql batch.length) batch
        else [])
    ++ [Event.commit]

/-- The insert operations of a run: statement text and parameters of every
`insert.Exec`, in the order issued. -/
def inserts : List Event → List (GoString × List Param)
  | [] => []
  | Event.exec stmt params :: es => (stmt, params) :: inserts es
  | _ :: es => inserts es

/-- The predictions a list of insert parameters stands for, read six at a time
in the order of the columns the statement text names, `(statement_id,
oracle_id, language_id, message, error, valid)`; `none` when the list is not
made of such groups of six. -/
def rowsOfParams : List Param → Option (List Prediction)
  | [] => some []
  | Param.num sid :: Param.num oid :: Param.num lid :: Param.text msg :: Param.text err
      :: Param.flag valid :: rest =>
    if sid < 0 then none
    else
      match rowsOfParams rest with
      | some predictions => some (⟨sid.toNat, oid, lid, msg, err, valid⟩ :: predictions)
      | none => none
  | _ => none

/-- The number of rows an insert operation is given: six parameters a row. -/
def rows (e : GoString × List Param) : Nat := e.2.length / 6

/-- The number of `(?,?,?,?,?,?)` tuples in a statement text. -/
def countTuples : GoString → Nat
  | [] => 0
  | b :: s =>
    (if (utf8 "(?,?,?,?,?,?)").isPrefixOf (b :: s) then 1 else 0) + countTuples s

/-- The value of the progress counter after the events `es`. -/
def counter (es : List Event) : Nat :=
  es.countP (fun e => e == Event.increment)

/-- The number of rows passed to an insert operation in the events `es`. -/
def persisted (es : List Event) : Nat :=
  ((inserts es).map rows).sum

/-- The number of predictions received in the events `es`. -/
def received : List Event → Nat
  | [] => 0
  | Event.recv _ :: es => received es + 1
  | _ :: es => received es

/-! ### `bulkPredict`: the goroutines and their channels

The routines of `bulkPredict` share the three channels `inputs`, `outputs`
and `done` and nothing else. Each routine is a program counter; a schedule
picks which routine takes its next step, so the schedules are the
interleavings. A routine whose next operation blocks cannot be picked. -/

/-- Where a worker (the closure `predict`) stands. -/
inductive WorkerPc where
  /-- It is at `statement, ok := <-inputs`. -/
  | recvInput
  /-- It is at `oracle.Predict(statement, languageId)`. -/
  | predicting (statement : corpus.Statement)
  /-- It is at `outputs <- prediction`. -/
  | sending (prediction : Prediction)
  /-- It has left the loop and is at `done <- id`. -/
  | sendDone
  /-- It has returned. -/
  | exited
  /-- It has panicked: `panic(err)`, or a send on a closed channel. -/
  | panicked
  deriving DecidableEq

/-- Where the coordinator (the closure `waitForDone`) stands. -/
inductive CoordPc where
  /-- It is at `_, ok := <-done`. -/
  | recvDone
  /-- It is at `close(done)`. -/
  | closeDone
  /-- It is at `close(outputs)`. -/
  | closeOutputs
  /-- It has returned. -/
  | exited
  deriving DecidableEq

/-- Where the feeding routine (`for _, statement := range statements`) stands:
the statements still to send, or `none` once `close(inputs)` is done. -/
abbrev FeederPc := Option (List corpus.Statement)

/-- The state of a run of `bulkPredict` after the routines are started. -/
structure Pipeline where
  /-- The buffer of the channel `inputs`. -/
  inputs : List corpus.Statement
  inputsClosed : Bool
  /-- The buffer of the channel `outputs`. -/
  outputs : List Prediction
  outputsClosed : Bool
  /-- The buffer of the channel `done`: the worker ids sent and not yet received. -/
  done : List Nat
  doneClosed : Bool
  feeder : FeederPc
  workers : List WorkerPc
  coord : CoordPc
  /-- The variable `countDown` of `waitForDone`. -/
  countDown : Int
  /-- The predictions the writer has received. -/
  saved : List Prediction
  /-- The writer has seen `outputs` closed and left its loop. -/
  writerDone : Bool
  /-- History: how many completion tokens the coordinator has received. -/
  tokens : Nat
  /-- History: the ids of the workers that have sent their completion token. -/
  emitted : List Nat
  /-- History: a worker sent to `outputs` after it had sent its token. -/
  sentAfterToken : Bool
  /-- History: a worker sent to `outputs` when it was closed. -/
  sentOnClosedOutputs : Bool
  /-- History: some other send on a closed channel, or a close of a closed
  channel, happened. -/
  chanPanic : Bool
  deriving DecidableEq

/-- The routine a schedule lets run next. -/
inductive Action where
  | feeder
  | worker (id : Nat)
  | coordinator
  | writer
  deriving DecidableEq

/-- The state when all routines have been started: `nRoutines` workers, the
channels empty, `countDown := nRoutines`. -/
def start (nRoutines : Nat) (statements : List corpus.Statement) : Pipeline :=
  { inputs := [], inputsClosed := false, outputs := [], outputsClosed := false,
    done := [], doneClosed := false, feeder := some statements,
    workers := List.replicate nRoutines WorkerPc.recvInput, coord := CoordPc.recvDone,
    countDown := nRoutines, saved := [], writerDone := false, tokens := 0, emitted := [],
    sentAfterToken := false, sentOnClosedOutputs := false, chanPanic := false }

/-- One step of the feeding routine: `inputs <- statement` (it blocks while
the buffer holds `nRoutines` statements), then `close(inputs)`. -/
def stepFeeder (nRoutines : Nat) (s : Pipeline) : Option Pipeline :=
  match s.feeder with
  | none => none
  | some [] =>
    if s.inputsClosed then some { s with feeder := none, chanPanic := true }
    else some { s with feeder := none, inputsClosed := true }
  | some (statement :: rest) =>
    if s.inputsClosed then some { s with feeder := none, chanPanic := true }
    else if s.inputs.length < nRoutines then
      some { s with inputs := s.inputs ++ [statement], feeder := some rest }
    else none

/-- One step of worker `id` (the closure `predict`). `oracle` is
`oracle.Predict(_, languageId)`, `none` when it returns an error; `backlog`
is `len(statements)`, the capacity of `outputs`. -/
def stepWorker (nRoutines backlog : Nat) (oracle : corpus.Statement → Option Prediction)
    (id : Nat) (s : Pipeline) : Option Pipeline :=
  match s.workers[id]? with
  | none => none
  | some WorkerPc.recvInput =>
    match s.inputs with
    | statement :: rest =>
      some { s with inputs := rest, workers := s.workers.set id (WorkerPc.predicting statement) }
    | [] =>
      if s.inputsClosed then some { s with workers := s.workers.set id WorkerPc.sendDone }
      else none
  | some (WorkerPc.predicting statement) =>
    match oracle statement with
    | some prediction =>
      some { s with workers := s.workers.set id (WorkerPc.sending prediction) }
    | none => some { s with workers := s.workers.set id WorkerPc.panicked }
  | some (WorkerPc.sending prediction) =>
    if s.outputsClosed then
      some { s with workers := s.workers.set id WorkerPc.panicked,
                    sentOnClosedOutputs := true }
    else if s.outputs.length < backlog then
      some { s with outputs := s.outputs ++ [prediction],
                    workers := s.workers.set id WorkerPc.recvInput,
                    sentAfterToken := s.sentAfterToken || decide (id ∈ s.emitted) }
    else none
  | some WorkerPc.sendDone =>
    if s.doneClosed then
      some { s with workers := s.workers.set id WorkerPc.panicked, chanPanic := true }
    else if s.done.length < nRoutines then
      some { s with done := s.done ++ [id], emitted := s.emitted ++ [id],
                    workers := s.workers.set id WorkerPc.exited }
    else none
  | some WorkerPc.exited => none
  | some WorkerPc.panicked => none

/-- One step of the coordinator (the closure `waitForDone`). -/
def stepCoordinator (s : Pipeline) : Option Pipeline :=
  match s.coord with
  | CoordPc.recvDone =>
    match s.done with
    | _ :: rest =>
      let countDown := s.countDown - 1
      some { s with done := rest, tokens := s.tokens + 1, countDown := countDown,
                    coord := if countDown ≤ 0 then CoordPc.closeDone else CoordPc.recvDone }
    | [] => if s.doneClosed then some { s with coord := CoordPc.closeDone } else none
  | CoordPc.closeDone =>
    if s.doneClosed then some { s with coord := CoordPc.exited, chanPanic := true }
    else some { s with doneClosed := true, coord := CoordPc.closeOutputs }
  | CoordPc.closeOutputs =>
    if s.outputsClosed then some { s with coord := CoordPc.exited, chanPanic := true }
    else some { s with outputsClosed := true, coord := CoordPc.exited }
  | CoordPc.exited => none

/-- One step of the writer (the closure `save`), as far as the channel
`outputs` goes: a receive, or leaving the loop when `outputs` is closed and
drained. -/
def stepWriter (s : Pipeline) : Option Pipeline :=
  if s.writerDone then none
  else
    match s.outputs with
    | prediction :: rest => some { s with outputs := rest, saved := s.saved ++ [prediction] }
    | [] => if s.outputsClosed then some { s with writerDone := true } else none

/-- One step of the routine the schedule picks; `none` when that routine is
blocked or has returned. -/
def step (nRoutines backlog : Nat) (oracle : corpus.Statement → Option Prediction)
    (a : Action) (s : Pipeline) : Option Pipeline :=
  match a with
  | Action.feeder => stepFeeder nRoutines s
  | Action.worker id => stepWorker nRoutines backlog oracle id s
  | Action.coordinator => stepCoordinator s
  | Action.writer => stepWriter s

/-- The state a schedule leads to, `none` when it picks a routine that cannot
step. -/
def run (nRoutines backlog : Nat) (oracle : corpus.Statement → Option Prediction) :
    List Action → Pipeline → Option Pipeline
  | [], s => some s
  | a :: sched, s =>
    match step nRoutines backlog oracle a s with
    | none => none
    | some s1 => run nRoutines backlog oracle sched s1

/-- Whether a worker has returned. -/
def isExited (pc : WorkerPc) : Bool :=
  match pc with
  | WorkerPc.exited => true
  | _ => false

/-- What holds of every state of a run: the bookkeeping that ties the
coordinator's count to the workers that have returned. -/
structure Inv (nRoutines : Nat) (s : Pipeline) : Prop where
  len : s.workers.length = nRoutines
  cd : s.countDown = (nRoutines : Int) - (s.tokens : Int)
  tok : s.tokens + s.done.length = s.workers.countP isExited
  doneClosed : s.doneClosed = true →
    s.coord = CoordPc.closeOutputs ∨ s.coord = CoordPc.exited
  outputsClosed : s.outputsClosed = true → s.coord = CoordPc.exited
  counted : s.coord ≠ CoordPc.recvDone → s.tokens = nRoutines
  emitted : ∀ id ∈ s.emitted, s.workers[id]? = some WorkerPc.exited
  feeding : ∀ l, s.feeder = some l → s.inputsClosed = false
  noLateSend : s.sentAfterToken = false
  noSendOnClosed : s.sentOnClosedOutputs = false
  noChanPanic : s.chanPanic = false

/-- A schedule of a run with two workers and two statements that lets every
routine finish. -/
def exampleSchedule : List Action :=
  [Action.feeder, Action.feeder, Action.worker 0, Action.feeder, Action.worker 1,
   Action.worker 0, Action.worker 1, Action.worker 0, Action.writer, Action.worker 1,
   Action.worker 0, Action.worker 1, Action.worker 0, Action.coordinator,
   Action.worker 1, Action.coordinator, Action.coordinator, Action.writer,
   Action.coordinator, Action.writer]

/-- The state `exampleSchedule` leads to. -/
def exampleFinal : Pipeline :=
  { inputs := [], inputsClosed := true, outputs := [], outputsClosed := true,
    done := [], doneClosed := true, feeder := none,
    workers := [WorkerPc.exited, WorkerPc.exited], coord := CoordPc.exited,
    countDown := 0,
    saved := [⟨1, 1, 2, [], [], none⟩, ⟨2, 1, 2, [], [], none⟩],
    writerDone := true, tokens := 2, emitted := [0, 1],
    sentAfterToken := false, sentOnClosedOutputs := false, chanPanic := false }

end predict

/-! ## The psql oracle's classification -/

namespace psql

open oracles

theorem startsWith_iff (str pre : GoString) :
    startsWith str pre = true ↔ pre <+: str := by
  unfold startsWith
  rw [List.prefix_iff_eq_take]
  constructor
  · intro h
    simp only [Bool.and_eq_true, beq_iff_eq] at h
    exact h.2.symm
  · intro h
    simp only [Bool.and_eq_true, beq_iff_eq, decide_eq_true_eq]
    refine ⟨?_, h.symm⟩
    have := congrArg List.length h
    simp only [List.length_take] at this
    omega

theorem trimLeft_append (ws rest : GoString) (hws : ∀ b ∈ ws, b = 32 ∨ b = 9) :
    trimLeft (ws ++ utf8 "syntax error" ++ rest) = utf8 "syntax error" ++ rest := by
  induction ws with
  | nil => rfl
  | cons b ws ih =>
    have hb : inCutset b = true := by
      rcases hws b (List.mem_cons_self _ _) with h | h <;> subst h <;> rfl
    have := ih (fun c hc => hws c (List.mem_cons_of_mem _ hc))
    simpa [trimLeft, List.dropWhile_cons, hb] using this

theorem hasSqlishSyntaxError_iff (t : GoString) :
    hasSqlishSyntaxError t = true ↔
      ∃ ws rest, t = utf8 "ERROR:" ++ ws ++ utf8 "syntax error" ++ rest ∧
        ∀ b ∈ ws, b = 32 ∨ b = 9 := by
  unfold hasSqlishSyntaxError
  constructor
  · intro h
    split at h
    · exact absurd h (by simp)
    · rename_i hs
      simp only [Bool.not_eq_true, Bool.not_eq_false_eq_eq_true, Bool.not_not] at hs
      have hs1 : startsWith t (utf8 "ERROR:") = true := by simpa using hs
      obtain ⟨r, hr⟩ := (startsWith_iff _ _).1 hs1
      obtain ⟨rest, hrest⟩ := (startsWith_iff _ _).1 h
      subst hr
      simp only [List.drop_left] at hrest
      refine ⟨r.takeWhile inCutset, rest, ?_, ?_⟩
      · have hr : r = r.takeWhile inCutset ++ (utf8 "syntax error" ++ rest) := by
          rw [hrest]
          exact (List.takeWhile_append_dropWhile _ _).symm
        rw [List.append_assoc, List.append_assoc, ← hr]
      · intro b hb
        have := List.mem_takeWhile_imp hb
        simp only [inCutset, Bool.or_eq_true, beq_iff_eq] at this
        exact this
  · rintro ⟨ws, rest, rfl, hws⟩
    have h1 : startsWith (utf8 "ERROR:" ++ ws ++ utf8 "syntax error" ++ rest) (utf8 "ERROR:") = true := by
      rw [startsWith_iff]
      exact ⟨ws ++ utf8 "syntax error" ++ rest, by simp [List.append_assoc]⟩
    rw [h1]
    simp only [Bool.not_true, Bool.false_eq_true, ↓reduceIte]
    rw [startsWith_iff]
    have : List.drop (utf8 "ERROR:").length (utf8 "ERROR:" ++ ws ++ utf8 "syntax error" ++ rest)
        = ws ++ utf8 "syntax error" ++ rest := by
      rw [List.append_assoc, List.append_assoc, List.drop_left, List.append_assoc]
    rw [this, trimLeft_append ws rest hws]
    exact ⟨rest, rfl⟩

theorem definitelyInvalid_iff (t : GoString) :
    (isInvalidCommand t || hasUnrecognizedValue t || hasSqlishSyntaxError t) = true ↔
      SpecInvalidText t := by
  unfold SpecInvalidText isInvalidCommand hasUnrecognizedValue invalidCommand unrecognizedValue
  rw [Bool.or_eq_true, Bool.or_eq_true, startsWith_iff, startsWith_iff,
    hasSqlishSyntaxError_iff, or_assoc]

/-- The value of `Predict` on a failing probe, by cases on the three patterns. -/
theorem Predict_failure (version : GoString) (probe : GoString → ProbeResult)
    (statement t : GoString) (h : (probe statement).err = some t) :
    Predict version probe statement (utf8 "psql") =
      .ok { Language := utf8 "psql", Version := version,
            Valid := if (isInvalidCommand t || hasUnrecognizedValue t ||
              hasSqlishSyntaxError t) = true then some false else none,
            Message := [], Error := t } := by
  unfold Predict
  simp only [ne_eq, not_true_eq_false, ↓reduceIte, h]
  split <;> rfl

/-- The value of `Predict` on a successful probe. -/
theorem Predict_success (version : GoString) (probe : GoString → ProbeResult)
    (statement : GoString) (h : (probe statement).err = none) :
    Predict version probe statement (utf8 "psql") =
      .ok { Language := utf8 "psql", Version := version, Valid := none,
            Message := (probe statement).message, Error := [] } := by
  unfold Predict
  simp only [ne_eq, not_true_eq_false, ↓reduceIte, h]

/-- The classification as a function of the text `err.Error()` returns: on an
error with text `t`, `Valid` points to false exactly when `t` begins with
`invalid command`, or with `unrecognized value`, or with `ERROR:` followed by
spaces and tabs and then `syntax error`; for every other text `Valid` is
nil. -/
theorem psql_predict_invalid_iff_pattern (version : GoString)
    (probe : GoString → ProbeResult) (statement t : GoString)
    (h : (probe statement).err = some t) :
    ∃ p, Predict version probe statement (utf8 "psql") = .ok p ∧
      (p.Valid = some false ↔ SpecInvalidText t) ∧
      (¬ SpecInvalidText t → p.Valid = none) := by
  refine ⟨_, Predict_failure version probe statement t h, ?_, ?_⟩
  · rw [← definitelyInvalid_iff]
    by_cases hc : (isInvalidCommand t || hasUnrecognizedValue t ||
        hasSqlishSyntaxError t) = true
    · simp [hc]
    · simp [hc]
  · intro hn
    rw [← definitelyInvalid_iff] at hn
    simp [hn]

/-- For language `psql` a prediction is returned, with `Valid` nil or pointing
to false. -/
theorem Predict_psql_ok (version : GoString) (probe : GoString → ProbeResult)
    (statement : GoString) :
    ∃ p, Predict version probe statement (utf8 "psql") = .ok p ∧
      (p.Valid = none ∨ p.Valid = some false) := by
  cases h : (probe statement).err with
  | none => exact ⟨_, Predict_success version probe statement h, Or.inl rfl⟩
  | some t =>
    refine ⟨_, Predict_failure version probe statement t h, ?_⟩
    by_cases hc : (isInvalidCommand t || hasUnrecognizedValue t ||
        hasSqlishSyntaxError t) = true
    · right; simp [hc]
    · left; simp [hc]

/-- The three tests on the literal texts of the specification: the first
three match a pattern, the fourth does not. -/
theorem classifier_examples :
    hasSqlishSyntaxError (utf8 "ERROR:  syntax error at or near \"FOOBAR\"") = true ∧
    isInvalidCommand (utf8 "invalid command \\xyz") = true ∧
    hasUnrecognizedValue (utf8 "unrecognized value \"bogus\" for option") = true ∧
    (isInvalidCommand (utf8 "ERROR:  relation \"foo\" does not exist") ||
      hasUnrecognizedValue (utf8 "ERROR:  relation \"foo\" does not exist") ||
      hasSqlishSyntaxError (utf8 "ERROR:  relation \"foo\" does not exist")) = false := by
  decide

theorem not_startsWith_of_head (b c : Nat) (t pre : GoString) (h : b ≠ c) :
    startsWith (b :: t) (c :: pre) = false := by
  cases hs : startsWith (b :: t) (c :: pre) with
  | false => rfl
  | true =>
    rw [startsWith_iff, List.cons_prefix_cons] at hs
    exact absurd hs.1.symm h

/-- A text whose first byte is `e` or `s` matches none of the three
patterns. -/
theorem not_definitelyInvalid_of_head (b : Nat) (t : GoString) (h : b = 101 ∨ b = 115) :
    (isInvalidCommand (b :: t) || hasUnrecognizedValue (b :: t) ||
      hasSqlishSyntaxError (b :: t)) = false := by
  have h1 : isInvalidCommand (b :: t) = false :=
    not_startsWith_of_head b 105 t _ (by rcases h with h | h <;> omega)
  have h2 : hasUnrecognizedValue (b :: t) = false :=
    not_startsWith_of_head b 117 t _ (by rcases h with h | h <;> omega)
  have h3 : startsWith (b :: t) (utf8 "ERROR:") = false :=
    not_startsWith_of_head b 69 t _ (by rcases h with h | h <;> omega)
  have h4 : hasSqlishSyntaxError (b :: t) = false := by
    unfold hasSqlishSyntaxError
    rw [h3]
    rfl
  rw [h1, h2, h4]
  rfl

theorem processStateString_head (ending : CommandEnd) :
    ∃ b t, processStateString ending = b :: t ∧ (b = 101 ∨ b = 115) := by
  cases ending with
  | exited status => exact ⟨101, _, rfl, Or.inl rfl⟩
  | signaled signal => exact ⟨115, _, rfl, Or.inr rfl⟩

/-- What `Predict` returns on a run of the command that did not exit with
status `0`, whatever the process wrote: `Valid` is nil and `Error` is the text
of the process state. -/
theorem Predict_cmdOutput_failed (version statement : GoString) (run : CommandRun)
    (h : run.ending ≠ CommandEnd.exited 0) :
    Predict version (fun _ => cmdOutput run) statement (utf8 "psql") =
      .ok { Language := utf8 "psql", Version := version, Valid := none,
            Message := [], Error := processStateString run.ending } := by
  have herr : (cmdOutput run).err = some (processStateString run.ending) := by
    unfold cmdOutput
    split
    · rename_i h0
      exact absurd h0 h
    · rfl
  rw [Predict_failure version (fun _ => cmdOutput run) statement _ herr]
  obtain ⟨b, t, hbt, hb⟩ := processStateString_head run.ending
  rw [hbt, not_definitelyInvalid_of_head b t hb]
  rfl

/-- C1, the code at the failing inputs: psql writes one of the three texts of
the claim on its standard error (`ERROR:  syntax error at or near "FOOBAR"`,
`invalid command \xyz`, `unrecognized value "bogus" for option`), each of which
matches an invalidity pattern, and exits with status `3`. The text the code
classifies is that of `err.Error()`, `exit status 3`, so `Valid` stays nil
where the claim says it points to false. -/
theorem psql_predict_classifies_exit_status :
    (SpecInvalidText (utf8 "ERROR:  syntax error at or near \"FOOBAR\"") ∧
      Predict (utf8 "14")
        (fun _ => cmdOutput
          { stdout := [], stderr := utf8 "ERROR:  syntax error at or near \"FOOBAR\"",
            ending := CommandEnd.exited 3 })
        (utf8 "FOOBAR;") (utf8 "psql")
      = .ok { Language := utf8 "psql", Version := utf8 "14", Valid := none,
              Message := [], Error := utf8 "exit status 3" }) ∧
    (SpecInvalidText (utf8 "invalid command \\xyz") ∧
      Predict (utf8 "14")
        (fun _ => cmdOutput
          { stdout := [], stderr := utf8 "invalid command \\xyz",
            ending := CommandEnd.exited 3 })
        (utf8 "\\xyz") (utf8 "psql")
      = .ok { Language := utf8 "psql", Version := utf8 "14", Valid := none,
              Message := [], Error := utf8 "exit status 3" }) ∧
    (SpecInvalidText (utf8 "unrecognized value \"bogus\" for option") ∧
      Predict (utf8 "14")
        (fun _ => cmdOutput
          { stdout := [], stderr := utf8 "unrecognized value \"bogus\" for option",
            ending := CommandEnd.exited 3 })
        (utf8 "\\set ON_ERROR_STOP bogus") (utf8 "psql")
      = .ok { Language := utf8 "psql", Version := utf8 "14", Valid := none,
              Message := [], Error := utf8 "exit status 3" }) :=
  ⟨⟨(definitelyInvalid_iff _).1 (by decide), rfl⟩,
   ⟨(definitelyInvalid_iff _).1 (by decide), rfl⟩,
   ⟨(definitelyInvalid_iff _).1 (by decide), rfl⟩⟩

/-- C2: `Predict` never asserts validity. Whatever the version, the statement,
the language and the probe outcome, a returned prediction has `Valid` nil or
pointing to false; for language `psql` a prediction is returned; and a probe
that succeeds (no failure text) gives `Valid` nil. -/
theorem psql_predict_never_valid (version : GoString) (probe : GoString → ProbeResult)
    (statement language : GoString) :
    (∀ p, Predict version probe statement language = .ok p →
        p.Valid = none ∨ p.Valid = some false) ∧
    (∃ p, Predict version probe statement (utf8 "psql") = .ok p ∧
        (p.Valid = none ∨ p.Valid = some false)) ∧
    ((probe statement).err = none →
      ∃ p, Predict version probe statement (utf8 "psql") = .ok p ∧ p.Valid = none) := by
  have key := Predict_psql_ok version probe statement
  refine ⟨?_, key, ?_⟩
  · intro p hp
    by_cases hl : language = utf8 "psql"
    · subst hl
      obtain ⟨q, hq, hv⟩ := key
      rw [hq] at hp
      cases hp
      exact hv
    · simp [Predict, hl] at hp
  · intro h
    exact ⟨_, Predict_success version probe statement h, rfl⟩

/-- What `Predict` keeps of the result of `cmd.Output()`: on success the
output as `Message`, with `Error` empty and `Valid` nil; on an error the text
of `err.Error()` as `Error`, whether or not it matched a pattern. -/
theorem Predict_keeps_output_and_error_text (version : GoString) (statement : GoString) :
    (∀ probe : GoString → ProbeResult, ∀ m, probe statement = ⟨m, none⟩ →
      ∃ p, Predict version probe statement (utf8 "psql") = .ok p ∧
        p.Message = m ∧ p.Error = [] ∧ p.Valid = none) ∧
    (∀ probe : GoString → ProbeResult, ∀ m t, probe statement = ⟨m, some t⟩ →
      ∃ p, Predict version probe statement (utf8 "psql") = .ok p ∧ p.Error = t) := by
  refine ⟨?_, ?_⟩
  · intro probe m h
    have he : (probe statement).err = none := by rw [h]
    refine ⟨_, Predict_success version probe statement he, ?_, rfl, rfl⟩
    simp [h]
  · intro probe m t h
    have he : (probe statement).err = some t := by rw [h]
    exact ⟨_, Predict_failure version probe statement t he, rfl⟩

/-- C3, the code at the failing input: psql writes
`ERROR:  relation "foo" does not exist` on its standard error, after a line of
output, and exits with status `3`. The prediction has `Error` equal to
`exit status 3`, the text of `err.Error()`, and not to the text psql wrote as
the claim says; `Valid` is nil and the output is not kept. On a run that
exits with status `0` the output is kept as `Message`, as the claim says. -/
theorem psql_predict_error_is_exit_status :
    Predict (utf8 "14")
        (fun _ => cmdOutput
          { stdout := utf8 "SET\n", stderr := utf8 "ERROR:  relation \"foo\" does not exist",
            ending := CommandEnd.exited 3 })
        (utf8 "set x to 1; select * from foo") (utf8 "psql")
      = .ok { Language := utf8 "psql", Version := utf8 "14", Valid := none,
              Message := [], Error := utf8 "exit status 3" } ∧
    utf8 "exit status 3" ≠ utf8 "ERROR:  relation \"foo\" does not exist" ∧
    Predict (utf8 "14")
        (fun _ => cmdOutput
          { stdout := utf8 "SET\n", stderr := [], ending := CommandEnd.exited 0 })
        (utf8 "set x to 1;") (utf8 "psql")
      = .ok { Language := utf8 "psql", Version := utf8 "14", Valid := none,
              Message := utf8 "SET\n", Error := [] } := by
  refine ⟨rfl, by decide, rfl⟩

end psql

/-- C4: `Predict` returns an error and no prediction exactly when the language
is unsupported: for the psql oracle, if and only if the language is not
`psql`; for the do-block oracle, if and only if the language is neither
`pgsql` nor `plpgsql`, and for each of these two a prediction is returned
without error. -/
theorem predict_error_iff_unsupported_language :
    (∀ (version : GoString) (probe : GoString → psql.ProbeResult)
        (statement language : GoString),
      (∃ e, psql.Predict version probe statement language = .error e) ↔
        language ≠ utf8 "psql") ∧
    (∀ (driverPredict : GoString → GoString → oracles.Prediction)
        (statement language : GoString),
      (∃ e, doblock.Predict driverPredict statement language = .error e) ↔
        (language ≠ utf8 "pgsql" ∧ language ≠ utf8 "plpgsql")) ∧
    (∀ (driverPredict : GoString → GoString → oracles.Prediction) (statement : GoString),
      (∃ p, doblock.Predict driverPredict statement (utf8 "pgsql") = .ok p) ∧
      (∃ p, doblock.Predict driverPredict statement (utf8 "plpgsql") = .ok p)) := by
  refine ⟨?_, ?_, ?_⟩
  · intro version probe statement language
    constructor
    · rintro ⟨e, he⟩ hl
      subst hl
      obtain ⟨p, hp, _⟩ := psql.Predict_psql_ok version probe statement
      rw [hp] at he
      cases he
    · intro hl
      refine ⟨utf8 "only accepts psql, not " ++ language, ?_⟩
      unfold psql.Predict
      rw [if_pos hl]
  · intro d statement language
    constructor
    · rintro ⟨e, he⟩
      unfold doblock.Predict at he
      split at he
      · cases he
      · split at he
        · cases he
        · exact ⟨by assumption, by assumption⟩
    · rintro ⟨h1, h2⟩
      refine ⟨utf8 "unsupported language " ++ language, ?_⟩
      unfold doblock.Predict
      rw [if_neg h1, if_neg h2]
  · intro d statement
    refine ⟨⟨doblock.testify d statement (utf8 "pgsql"), ?_⟩,
      ⟨doblock.testify d statement (utf8 "plpgsql"), ?_⟩⟩
    · unfold doblock.Predict
      rw [if_pos rfl]
    · unfold doblock.Predict
      rw [if_neg (by decide), if_pos rfl]

/-! ## The worker count of `bulkPredict` -/

namespace predict

/-- C7, the claim as the specification states it, refuted on the code: with
one CPU the default is one worker, not `max(2, 1) = 2`, and with four CPUs and
a backlog of three statements it is two workers, not `max(2, 7) = 7`. -/
theorem default_worker_count_not_max :
    nRoutines 1 1 none ≠ max 2 (2 * 1 - 1) ∧ nRoutines 4 3 none ≠ max 2 (2 * 4 - 1) := by
  decide

/-- C7, amended: with no override, for `P >= 1` CPUs and a backlog of
`N >= 1` statements the worker count is `2*P - 1` when the backlog has at
least that many statements; for a smaller backlog it is `N - 1`, and `2` when
that would be `0` (that is, when `N = 1`). -/
theorem default_worker_count (P N : Int) (hP : 1 ≤ P) (hN : 1 ≤ N) :
    nRoutines P N none =
      if 2 * P - 1 ≤ N then 2 * P - 1 else if N = 1 then 2 else N - 1 := by
  unfold nRoutines
  simp only
  split_ifs <;> omega

theorem default_worker_count_witness :
    nRoutines 8 4 none =
      if 2 * (8 : Int) - 1 ≤ 4 then 2 * 8 - 1 else if (4 : Int) = 1 then 2 else 4 - 1 :=
  default_worker_count 8 4 (by decide) (by decide)

theorem intOfUint_small (p : Nat) (hp : p < 2 ^ 63) : intOfUint p = (p : Int) := by
  unfold intOfUint
  have h : p % 2 ^ 64 = p := Nat.mod_eq_of_lt (by omega)
  rw [h, if_pos hp]

/-- The override below the signed range: it is applied when it is positive
and below `3*P`, and otherwise the default count stands. -/
theorem nRoutines_override_small (P N : Int) (p : Nat) (hp : p < 2 ^ 63) :
    nRoutines P N (initParallelism p) =
      if 0 < p ∧ (p : Int) < 3 * P then (p : Int) else nRoutines P N none := by
  unfold initParallelism
  by_cases h0 : p > 0
  · rw [if_pos h0]
    have h : p % 2 ^ 64 = p := Nat.mod_eq_of_lt (by omega)
    simp only [nRoutines, intOfUint_small p hp, h]
  · rw [if_neg h0]
    have : p = 0 := by omega
    subst this
    simp

/-- C8, the code at the failing input: with four CPUs, a backlog of ten
statements and the flag value `2^63`, which is at least `3*4`, the conversion
to `int` wraps to `-2^63`, the clamp test passes and the worker count becomes
`-2^63` instead of the default `7`. -/
theorem override_clamp_wraps_around :
    (3 * 4 : Int) ≤ ((2 ^ 63 : Nat) : Int) ∧
    nRoutines 4 10 (initParallelism (2 ^ 63)) = -9223372036854775808 ∧
    nRoutines 4 10 none = 7 := by
  decide

/-! ## The writer of `bulkPredict` -/

theorem inserts_append (es fs : List Event) :
    inserts (es ++ fs) = inserts es ++ inserts fs := by
  induction es with
  | nil => rfl
  | cons e es ih => cases e <;> simp [inserts, ih]

theorem inserts_recv_inc (p : Prediction) (bar : Bool) :
    inserts (Event.recv p :: if bar = true then [Event.increment] else []) = [] := by
  cases bar <;> rfl

theorem length_rowParams_flatMap (b : List Prediction) :
    (b.flatMap rowParams).length = 6 * b.length := by
  induction b with
  | nil => rfl
  | cons p b ih =>
    simp only [List.flatMap_cons, List.length_append, ih, List.length_cons, rowParams,
      List.length_nil]
    omega

theorem rows_batch (s : GoString) (b : List Prediction) :
    rows (s, b.flatMap rowParams) = b.length := by
  unfold rows
  rw [length_rowParams_flatMap]
  omega

/-- The receive loop cuts the stream into full batches: started with a batch
shorter than `K`, it issues one insert per completed batch of `K` predictions
and leaves the unfinished batch, shorter than `K`, for the final flush. -/
theorem saveLoop_batches (K : Nat) (hK : 0 < K) (ins : GoString) (bar : Bool) :
    ∀ (outputs batch : List Prediction), batch.length < K →
      ∃ bs : List (List Prediction),
        inserts (saveLoop K ins bar outputs batch).1
            = bs.map (fun b => (ins, b.flatMap rowParams)) ∧
        (∀ b ∈ bs, b.length = K) ∧
        bs.flatten ++ (saveLoop K ins bar outputs batch).2 = batch ++ outputs ∧
        (saveLoop K ins bar outputs batch).2.length < K := by
  intro outputs
  induction outputs with
  | nil =>
    intro batch hb
    exact ⟨[], rfl, by simp, by simp [saveLoop], by simpa [saveLoop] using hb⟩
  | cons p rest ih =>
    intro batch hb
    by_cases hfull : (batch ++ [p]).length % K = 0
    · have hlen : (batch ++ [p]).length = K := by
        have h1 : (batch ++ [p]).length = batch.length + 1 := by simp
        rw [h1] at hfull ⊢
        rcases Nat.lt_or_ge (batch.length + 1) K with hlt | hge
        · rw [Nat.mod_eq_of_lt hlt] at hfull
          omega
        · omega
      obtain ⟨bs, h1, h2, h3, h4⟩ := ih [] hK
      refine ⟨(batch ++ [p]) :: bs, ?_, ?_, ?_, ?_⟩
      · simp only [saveLoop, hfull, ↓reduceIte, flush, List.map_cons]
        rw [inserts_append, inserts_append, inserts_recv_inc, h1]
        rfl
      · intro b hb'
        rcases List.mem_cons.1 hb' with rfl | hb'
        · exact hlen
        · exact h2 b hb'
      · simp only [saveLoop, hfull, ↓reduceIte, List.flatten_cons]
        rw [List.append_assoc, h3]
        simp
      · simpa only [saveLoop, hfull, ↓reduceIte] using h4
    · have hlen : (batch ++ [p]).length < K := by
        have h1 : (batch ++ [p]).length = batch.length + 1 := by simp
        rw [h1] at hfull ⊢
        rcases Nat.lt_or_ge (batch.length + 1) K with hlt | hge
        · exact hlt
        · have : batch.length + 1 = K := by omega
          rw [this, Nat.mod_self] at hfull
          exact absurd rfl hfull
      obtain ⟨bs, h1, h2, h3, h4⟩ := ih (batch ++ [p]) hlen
      refine ⟨bs, ?_, h2, ?_, ?_⟩
      · simp only [saveLoop, hfull, ↓reduceIte]
        rw [inserts_append, inserts_recv_inc, h1]
        rfl
      · simp only [saveLoop, hfull, ↓reduceIte]
        rw [h3]
        simp
      · simpa only [saveLoop, hfull, ↓reduceIte] using h4

theorem utf8_tuple : utf8 "(?,?,?,?,?,?)" = [40, 63, 44, 63, 44, 63, 44, 63, 44, 63, 44, 63, 41] := by
  decide

theorem utf8_tupleComma :
    utf8 "(?,?,?,?,?,?)," = [40, 63, 44, 63, 44, 63, 44, 63, 44, 63, 44, 63, 41, 44] := by
  decide

theorem countTuples_cons_ne (b : Nat) (s : GoString) (hb : b ≠ 40) :
    countTuples (b :: s) = countTuples s := by
  rw [countTuples, utf8_tuple]
  have : ((40 : Nat) == b) = false := by simpa using Ne.symm hb
  simp only [List.isPrefixOf, this, Bool.false_and, Bool.false_eq_true, ↓reduceIte, zero_add]

theorem countTuples_skip (pre s : GoString) (h : ∀ b ∈ pre, b ≠ 40) :
    countTuples (pre ++ s) = countTuples s := by
  induction pre with
  | nil => rfl
  | cons b pre ih =>
    rw [List.cons_append, countTuples_cons_ne _ _ (h b (List.mem_cons_self _ _))]
    exact ih (fun c hc => h c (List.mem_cons_of_mem _ hc))

theorem countTuples_paren_ne (c : Nat) (s : GoString) (hc : c ≠ 63) :
    countTuples (40 :: c :: s) = countTuples (c :: s) := by
  rw [countTuples, utf8_tuple]
  have : ((63 : Nat) == c) = false := by simpa using Ne.symm hc
  simp only [List.isPrefixOf, this, Bool.false_and, Bool.and_false, Bool.false_eq_true,
    ↓reduceIte, zero_add]

theorem countTuples_tupleComma (s : GoString) :
    countTuples (utf8 "(?,?,?,?,?,?)," ++ s) = countTuples s + 1 := by
  rw [utf8_tupleComma]
  simp only [List.cons_append, List.nil_append]
  rw [countTuples, utf8_tuple]
  simp only [List.isPrefixOf, beq_self_eq_true, Bool.true_and, ↓reduceIte]
  rw [countTuples_cons_ne _ _ (by decide), countTuples_cons_ne _ _ (by decide),
    countTuples_cons_ne _ _ (by decide), countTuples_cons_ne _ _ (by decide),
    countTuples_cons_ne _ _ (by decide), countTuples_cons_ne _ _ (by decide),
    countTuples_cons_ne _ _ (by decide), countTuples_cons_ne _ _ (by decide),
    countTuples_cons_ne _ _ (by decide), countTuples_cons_ne _ _ (by decide),
    countTuples_cons_ne _ _ (by decide), countTuples_cons_ne _ _ (by decide),
    countTuples_cons_ne _ _ (by decide)]
  omega

theorem countTuples_replicate (n : Nat) (s : GoString) :
    countTuples ((List.replicate n (utf8 "(?,?,?,?,?,?),")).flatten ++ s)
      = countTuples s + n := by
  induction n with
  | zero => simp
  | succ n ih =>
    rw [List.replicate_succ, List.flatten_cons, List.append_assoc, countTuples_tupleComma, ih]
    omega

theorem countTuples_tail :
    countTuples (utf8 "(?,?,?,?,?,?)" ++ utf8 " ON CONFLICT DO NOTHING") = 1 := by
  decide

theorem countTuples_head (s : GoString) :
    countTuples (utf8 "INSERT INTO predictions"
      ++ utf8 "(statement_id, oracle_id, language_id, message, error, valid)"
      ++ utf8 " VALUES " ++ s) = countTuples s := by
  have h : utf8 "INSERT INTO predictions"
      ++ utf8 "(statement_id, oracle_id, language_id, message, error, valid)"
      ++ utf8 " VALUES " =
      [73, 78, 83, 69, 82, 84, 32, 73, 78, 84, 79, 32, 112, 114, 101, 100, 105, 99, 116, 105,
       111, 110, 115] ++ (40 :: 115 ::
      [116, 97, 116, 101, 109, 101, 110, 116, 95, 105, 100, 44, 32, 111, 114, 97, 99, 108,
       101, 95, 105, 100, 44, 32, 108, 97, 110, 103, 117, 97, 103, 101, 95, 105, 100, 44, 32,
       109, 101, 115, 115, 97, 103, 101, 44, 32, 101, 114, 114, 111, 114, 44, 32, 118, 97,
       108, 105, 100, 41, 32, 86, 65, 76, 85, 69, 83, 32]) := by
    decide
  rw [h, List.append_assoc, countTuples_skip _ _ (by decide), List.cons_append,
    List.cons_append, countTuples_paren_ne _ _ (by decide), ← List.cons_append,
    countTuples_skip _ _ (by decide)]



theorem countTuples_sql (n : Nat) (hn : 1 ≤ n) : countTuples (sql n) = n := by
  unfold sql
  rw [List.append_assoc, List.append_assoc, countTuples_head,
    countTuples_replicate, countTuples_tail]
  omega

theorem batchSize_pos (N : Nat) (hN : 1 ≤ N) : 0 < batchSize N := by
  unfold batchSize
  split <;> omega

theorem batchSize_eq_min (N : Nat) : batchSize N = min 1000 N := by
  unfold batchSize
  split <;> omega

/-- The inserts of a whole run: the received predictions cut into consecutive
batches of `batchSize` rows and a shorter last one when the division leaves a
remainder, each passed to a statement with as many tuples as rows. -/
theorem save_batches (N : Nat) (hN : 1 ≤ N) (outputs : List Prediction) (bar : Bool) :
    ∃ bs : List (List Prediction),
      inserts (save N outputs bar)
          = bs.map (fun b => (sql b.length, b.flatMap rowParams)) ∧
      bs.flatten = outputs ∧
      bs.map List.length
          = List.replicate (outputs.length / batchSize N) (batchSize N)
            ++ (if outputs.length % batchSize N = 0 then []
                else [outputs.length % batchSize N]) := by
  have hK := batchSize_pos N hN
  obtain ⟨bs, h1, h2, h3, h4⟩ :=
    saveLoop_batches (batchSize N) hK (sql (batchSize N)) bar outputs [] hK
  rw [List.nil_append] at h3
  have hmap : bs.map List.length = List.replicate bs.length (batchSize N) := by
    rw [List.eq_replicate_iff]
    refine ⟨by simp, ?_⟩
    intro n hn
    obtain ⟨b, hb, rfl⟩ := List.mem_map.1 hn
    exact h2 b hb
  have hlen : (saveLoop (batchSize N) (sql (batchSize N)) bar outputs []).2.length
      + batchSize N * bs.length = outputs.length := by
    have := congrArg List.length h3
    rw [List.length_append, List.length_flatten, hmap, List.sum_replicate, smul_eq_mul] at this
    rw [← this, Nat.mul_comm]
    omega
  obtain ⟨hdiv, hmod⟩ := (Nat.div_mod_unique hK).2 ⟨hlen, h4⟩
  have hins : inserts (save N outputs bar) =
      bs.map (fun b => (sql (batchSize N), b.flatMap rowParams)) ++
        inserts (if (saveLoop (batchSize N) (sql (batchSize N)) bar outputs []).2.length > 0 then
          Event.prepare (sql (saveLoop (batchSize N) (sql (batchSize N)) bar outputs []).2.length)
            :: flush (sql (saveLoop (batchSize N) (sql (batchSize N)) bar outputs []).2.length)
              (saveLoop (batchSize N) (sql (batchSize N)) bar outputs []).2
          else []) := by
    unfold save
    simp only [inserts_append, h1]
    simp [inserts]
  have hfull : bs.map (fun b => (sql (batchSize N), b.flatMap rowParams))
      = bs.map (fun b => (sql b.length, b.flatMap rowParams)) := by
    apply List.map_congr_left
    intro b hb
    rw [h2 b hb]
  generalize (saveLoop (batchSize N) (sql (batchSize N)) bar outputs []).2 = last at *
  by_cases hlast : last.length > 0
  · refine ⟨bs ++ [last], ?_, ?_, ?_⟩
    · rw [hins, hfull, if_pos hlast]
      simp [inserts, flush]
    · rw [List.flatten_append, List.flatten_singleton]
      exact h3
    · rw [List.map_append, hmap, hdiv, hmod, if_neg (by omega)]
      rfl
  · have hnil : last = [] := List.eq_nil_of_length_eq_zero (by omega)
    subst hnil
    refine ⟨bs, ?_, ?_, ?_⟩
    · rw [hins, hfull, if_neg hlast]
      simp [inserts]
    · simpa using h3
    · rw [hmap, hdiv, hmod]
      simp

theorem ceil_div (B K : Nat) (hK : 0 < K) :
    (B + K - 1) / K = B / K + (if B % K = 0 then 0 else 1) := by
  have hB := Nat.div_add_mod B K
  by_cases hr : B % K = 0
  · rw [if_pos hr]
    have h : (B + K - 1) / K = B / K ∧ (B + K - 1) % K = K - 1 := by
      rw [Nat.div_mod_unique hK]
      constructor
      · rw [hr] at hB
        omega
      · omega
    rw [h.1]
    rfl
  · rw [if_neg hr]
    have hlt := Nat.mod_lt B hK
    have h : (B + K - 1) / K = B / K + 1 ∧ (B + K - 1) % K = B % K - 1 := by
      rw [Nat.div_mod_unique hK]
      constructor
      · rw [Nat.mul_add]
        omega
      · omega
    exact h.1

theorem flatten_map_rowParams (bs : List (List Prediction)) :
    (bs.map (fun b => b.flatMap rowParams)).flatten = bs.flatten.flatMap rowParams := by
  induction bs with
  | nil => rfl
  | cons b bs ih => simp [List.flatMap_append, ih]

theorem map_rows_batches (bs : List (List Prediction)) :
    (bs.map (fun b => (sql b.length, b.flatMap rowParams))).map rows = bs.map List.length := by
  rw [List.map_map]
  apply List.map_congr_left
  intro b _
  exact rows_batch _ b

theorem rowsOfParams_rowParams_append (p : Prediction) (ps : List Param) :
    rowsOfParams (rowParams p ++ ps) =
      match rowsOfParams ps with
      | some predictions => some (p :: predictions)
      | none => none := by
  have h : ¬ ((p.StatementId : Int) < 0) := by omega
  simp only [rowParams, List.cons_append, List.nil_append, rowsOfParams, h, ↓reduceIte,
    Int.toNat_ofNat]
  show (match rowsOfParams ps with
    | some predictions => some (p :: predictions)
    | none => none) = _
  rfl

theorem rowsOfParams_flatMap (b : List Prediction) :
    rowsOfParams (b.flatMap rowParams) = some b := by
  induction b with
  | nil => simp [rowsOfParams]
  | cons p b ih => rw [List.flatMap_cons, rowsOfParams_rowParams_append, ih]

/-- C5: the writer persists each result exactly once and in receipt order.
For a backlog of `N >= 1` statements and every sequence `outputs` of
predictions received before the queue closes, the parameters of each insert
operation, read six at a time in the order of the statement's columns, are a
batch of predictions, the batches concatenated in the order the inserts are
issued are `outputs`, and so are all the parameters read in one go: nothing
is dropped, duplicated or reordered. -/
theorem save_persists_once_in_receipt_order (N : Nat) (hN : 1 ≤ N)
    (outputs : List Prediction) (bar : Bool) :
    ∃ batches : List (List Prediction),
      (inserts (save N outputs bar)).map (fun e => rowsOfParams e.2)
          = batches.map some ∧
      batches.flatten = outputs ∧
      rowsOfParams ((inserts (save N outputs bar)).map Prod.snd).flatten = some outputs := by
  obtain ⟨bs, h1, h2, _⟩ := save_batches N hN outputs bar
  refine ⟨bs, ?_, h2, ?_⟩
  · rw [h1, List.map_map]
    apply List.map_congr_left
    intro b _
    exact rowsOfParams_flatMap b
  · have hm : (inserts (save N outputs bar)).map Prod.snd
        = bs.map (fun b => b.flatMap rowParams) := by
      rw [h1, List.map_map]
      rfl
    rw [hm, flatten_map_rowParams, h2]
    exact rowsOfParams_flatMap outputs

theorem save_persists_once_in_receipt_order_witness :
    ∃ batches : List (List Prediction),
      (inserts (save 3 [⟨7, 1, 2, utf8 "ok", [], none⟩, ⟨8, 1, 2, [], utf8 "ERROR", some false⟩,
          ⟨9, 1, 2, [], [], none⟩] true)).map (fun e => rowsOfParams e.2)
          = batches.map some ∧
      batches.flatten = [⟨7, 1, 2, utf8 "ok", [], none⟩, ⟨8, 1, 2, [], utf8 "ERROR", some false⟩,
          ⟨9, 1, 2, [], [], none⟩] ∧
      rowsOfParams ((inserts (save 3 [⟨7, 1, 2, utf8 "ok", [], none⟩,
          ⟨8, 1, 2, [], utf8 "ERROR", some false⟩,
          ⟨9, 1, 2, [], [], none⟩] true)).map Prod.snd).flatten
        = some [⟨7, 1, 2, utf8 "ok", [], none⟩, ⟨8, 1, 2, [], utf8 "ERROR", some false⟩,
          ⟨9, 1, 2, [], [], none⟩] :=
  save_persists_once_in_receipt_order 3 (by decide) _ true

/-- C6: batch flush arithmetic. For a backlog of `B >= 1` statements, all of
whose predictions are received, the batch size is `K = min(1000, B)`, the
writer issues `ceil(B/K)` inserts, every insert but the last is given `K`
rows, the last is given `B mod K` rows (`K` when `B` is a multiple of `K`),
and the statement of each insert has as many `(?,?,?,?,?,?)` tuples as rows
are passed to it. -/
theorem save_batch_flush_arithmetic (B : Nat) (hB : 1 ≤ B)
    (outputs : List Prediction) (hlen : outputs.length = B) (bar : Bool) :
    batchSize B = min 1000 B ∧
    (inserts (save B outputs bar)).length = (B + batchSize B - 1) / batchSize B ∧
    ((inserts (save B outputs bar)).map rows).dropLast
        = List.replicate ((B + batchSize B - 1) / batchSize B - 1) (batchSize B) ∧
    ((inserts (save B outputs bar)).map rows).getLast?
        = some (if B % batchSize B = 0 then batchSize B else B % batchSize B) ∧
    ∀ e ∈ inserts (save B outputs bar), countTuples e.1 = rows e := by
  have hK := batchSize_pos B hB
  obtain ⟨bs, h1, _, h3⟩ := save_batches B hB outputs bar
  rw [hlen] at h3
  have hrows : (inserts (save B outputs bar)).map rows
      = List.replicate (B / batchSize B) (batchSize B)
        ++ (if B % batchSize B = 0 then [] else [B % batchSize B]) := by
    rw [h1, map_rows_batches, h3]
  have hq : 1 ≤ B / batchSize B := by
    rw [Nat.le_div_iff_mul_le hK, batchSize_eq_min]
    omega
  have hceil := ceil_div B (batchSize B) hK
  refine ⟨batchSize_eq_min B, ?_, ?_, ?_, ?_⟩
  · have := congrArg List.length hrows
    rw [List.length_map] at this
    rw [this, hceil]
    split <;> simp
  · rw [hrows, hceil]
    obtain ⟨q, hq'⟩ : ∃ q, B / batchSize B = q + 1 := ⟨B / batchSize B - 1, by omega⟩
    rw [hq']
    by_cases hr : B % batchSize B = 0
    · rw [if_pos hr, if_pos hr, List.append_nil, List.replicate_succ', List.dropLast_concat]
      rfl
    · rw [if_neg hr, if_neg hr, List.dropLast_concat]
      rfl
  · rw [hrows]
    obtain ⟨q, hq'⟩ : ∃ q, B / batchSize B = q + 1 := ⟨B / batchSize B - 1, by omega⟩
    rw [hq']
    by_cases hr : B % batchSize B = 0
    · rw [if_pos hr, if_pos hr, List.append_nil, List.replicate_succ', List.getLast?_concat]
    · rw [if_neg hr, if_neg hr, List.getLast?_concat]
  · intro e he
    rw [h1] at he
    obtain ⟨b, hb, rfl⟩ := List.mem_map.1 he
    rw [rows_batch]
    apply countTuples_sql
    have hmem : b.length ∈ bs.map List.length := List.mem_map.2 ⟨b, hb, rfl⟩
    rw [h3, List.mem_append] at hmem
    rcases hmem with hmem | hmem
    · rw [(List.mem_replicate.1 hmem).2]
      exact hK
    · by_cases hr : B % batchSize B = 0
      · rw [if_pos hr] at hmem
        exact absurd hmem (List.not_mem_nil _)
      · rw [if_neg hr, List.mem_singleton] at hmem
        omega

theorem save_batch_flush_arithmetic_witness :
    batchSize 3 = min 1000 3 ∧
    (inserts (save 3 [⟨7, 1, 2, [], [], none⟩, ⟨8, 1, 2, [], [], none⟩,
        ⟨9, 1, 2, [], [], none⟩] false)).length = (3 + batchSize 3 - 1) / batchSize 3 ∧
    ((inserts (save 3 [⟨7, 1, 2, [], [], none⟩, ⟨8, 1, 2, [], [], none⟩,
        ⟨9, 1, 2, [], [], none⟩] false)).map rows).dropLast
        = List.replicate ((3 + batchSize 3 - 1) / batchSize 3 - 1) (batchSize 3) ∧
    ((inserts (save 3 [⟨7, 1, 2, [], [], none⟩, ⟨8, 1, 2, [], [], none⟩,
        ⟨9, 1, 2, [], [], none⟩] false)).map rows).getLast?
        = some (if 3 % batchSize 3 = 0 then batchSize 3 else 3 % batchSize 3) ∧
    ∀ e ∈ inserts (save 3 [⟨7, 1, 2, [], [], none⟩, ⟨8, 1, 2, [], [], none⟩,
        ⟨9, 1, 2, [], [], none⟩] false), countTuples e.1 = rows e :=
  save_batch_flush_arithmetic 3 (by decide)
    [⟨7, 1, 2, [], [], none⟩, ⟨8, 1, 2, [], [], none⟩, ⟨9, 1, 2, [], [], none⟩] rfl false

/-! ## The progress counter of the writer -/

theorem prefix_append_cases {α : Type} (a b pre : List α) (h : pre <+: a ++ b) :
    pre <+: a ∨ ∃ t, pre = a ++ t ∧ t <+: b := by
  induction a generalizing pre with
  | nil => exact Or.inr ⟨pre, rfl, h⟩
  | cons x a ih =>
    rw [List.cons_append, List.prefix_cons_iff] at h
    rcases h with rfl | ⟨t, rfl, ht⟩
    · exact Or.inl (List.nil_prefix)
    · rcases ih t ht with h1 | ⟨u, rfl, hu⟩
      · exact Or.inl ((List.prefix_cons_inj x).2 h1)
      · exact Or.inr ⟨u, rfl, hu⟩

theorem counter_append (es fs : List Event) :
    counter (es ++ fs) = counter es + counter fs := by
  unfold counter
  exact List.countP_append _ _ _

theorem persisted_append (es fs : List Event) :
    persisted (es ++ fs) = persisted es + persisted fs := by
  unfold persisted
  rw [inserts_append, List.map_append, List.sum_append]

theorem received_append (es fs : List Event) :
    received (es ++ fs) = received es + received fs := by
  induction es with
  | nil => simp [received]
  | cons e es ih =>
    rw [List.cons_append]
    cases e <;> simp only [received] <;> omega

theorem counter_mono (pre es : List Event) (h : pre <+: es) : counter pre ≤ counter es := by
  obtain ⟨t, rfl⟩ := h
  rw [counter_append]
  omega

theorem persisted_mono (pre es : List Event) (h : pre <+: es) :
    persisted pre ≤ persisted es := by
  obtain ⟨t, rfl⟩ := h
  rw [persisted_append]
  omega

theorem received_mono (pre es : List Event) (h : pre <+: es) :
    received pre ≤ received es := by
  obtain ⟨t, rfl⟩ := h
  rw [received_append]
  omega

theorem persisted_flush (ins : GoString) (batch : List Prediction) :
    persisted (flush ins batch) = batch.length := by
  simp only [flush, persisted, inserts, List.map_cons, List.map_nil, List.sum_cons,
    List.sum_nil, rows_batch]
  rfl

/-- In the receive loop with the progress bar on, at every point the counter
is the number of predictions received (one less between a receipt and its
increment) and the rows already inserted are at most the counter plus the
rows the batch held when the loop was entered. -/
theorem saveLoop_progress (K : Nat) (hK : 0 < K) (ins : GoString) :
    ∀ (outputs batch : List Prediction), batch.length < K →
      (∀ pre, pre <+: (saveLoop K ins true outputs batch).1 →
        persisted pre ≤ counter pre + batch.length ∧
        counter pre ≤ received pre ∧ received pre ≤ counter pre + 1) ∧
      counter (saveLoop K ins true outputs batch).1 = outputs.length ∧
      received (saveLoop K ins true outputs batch).1 = outputs.length ∧
      persisted (saveLoop K ins true outputs batch).1
        + (saveLoop K ins true outputs batch).2.length = batch.length + outputs.length := by
  intro outputs
  induction outputs with
  | nil =>
    intro batch _
    refine ⟨?_, rfl, rfl, by simp [saveLoop, persisted, inserts]⟩
    intro pre hpre
    have : pre = [] := List.prefix_nil.1 hpre
    subst this
    simp [persisted, inserts, counter, received]
  | cons p rest ih =>
    intro batch hb
    have hlen1 : (batch ++ [p]).length = batch.length + 1 := by simp
    have hc2 : counter [Event.recv p, Event.increment] = 1 := rfl
    have hr2 : received [Event.recv p, Event.increment] = 1 := rfl
    have hp2 : persisted [Event.recv p, Event.increment] = 0 := rfl
    by_cases hfull : (batch ++ [p]).length % K = 0
    · obtain ⟨ih1, ih2, ih3, ih4⟩ := ih [] hK
      have hev : (saveLoop K ins true (p :: rest) batch).1 =
          [Event.recv p, Event.increment] ++ (flush ins (batch ++ [p]) ++
            (saveLoop K ins true rest []).1) := by
        simp only [saveLoop, hfull, ↓reduceIte]
        rfl
      have hst : (saveLoop K ins true (p :: rest) batch).2 = (saveLoop K ins true rest []).2 := by
        simp only [saveLoop, hfull, ↓reduceIte]
      rw [hev, hst]
      refine ⟨?_, ?_, ?_, ?_⟩
      · intro pre hpre
        rcases prefix_append_cases _ _ _ hpre with h | ⟨t, rfl, ht⟩
        · rw [List.prefix_cons_iff] at h
          rcases h with rfl | ⟨t, rfl, ht⟩
          · simp [persisted, inserts, counter, received]
          · rw [List.prefix_cons_iff] at ht
            rcases ht with rfl | ⟨u, rfl, hu⟩
            · simp [persisted, inserts, counter, received]
            · have : u = [] := List.prefix_nil.1 hu
              subst this
              rw [hc2, hr2, hp2]
              omega
        · rw [counter_append, received_append, persisted_append, hc2, hr2, hp2]
          rcases prefix_append_cases _ _ _ ht with h | ⟨u, rfl, hu⟩
          · have h1 := counter_mono _ _ h
            have h2 := received_mono _ _ h
            have h3 := persisted_mono _ _ h
            rw [persisted_flush] at h3
            have h4 : counter (flush ins (batch ++ [p])) = 0 := by simp [flush, counter]
            have h5 : received (flush ins (batch ++ [p])) = 0 := by simp [flush, received]
            omega
          · obtain ⟨g1, g2, g3⟩ := ih1 u hu
            have h4 : counter (flush ins (batch ++ [p])) = 0 := by simp [flush, counter]
            have h5 : received (flush ins (batch ++ [p])) = 0 := by simp [flush, received]
            rw [counter_append, received_append, persisted_append, persisted_flush, h4, h5]
            simp only [List.length_nil] at g1
            omega
      · have h4 : counter (flush ins (batch ++ [p])) = 0 := by simp [flush, counter]
        rw [counter_append, counter_append, hc2, h4, ih2, List.length_cons]
        omega
      · have h5 : received (flush ins (batch ++ [p])) = 0 := by simp [flush, received]
        rw [received_append, received_append, hr2, h5, ih3, List.length_cons]
        omega
      · rw [persisted_append, persisted_append, hp2, persisted_flush, List.length_cons]
        simp only [List.length_nil] at ih4
        omega
    · have hlen : (batch ++ [p]).length < K := by
        rw [hlen1] at hfull ⊢
        rcases Nat.lt_or_ge (batch.length + 1) K with hlt | hge
        · exact hlt
        · have : batch.length + 1 = K := by omega
          rw [this, Nat.mod_self] at hfull
          exact absurd rfl hfull
      obtain ⟨ih1, ih2, ih3, ih4⟩ := ih (batch ++ [p]) hlen
      have hev : (saveLoop K ins true (p :: rest) batch).1 =
          [Event.recv p, Event.increment] ++ (saveLoop K ins true rest (batch ++ [p])).1 := by
        simp only [saveLoop, hfull, ↓reduceIte]
      have hst : (saveLoop K ins true (p :: rest) batch).2
          = (saveLoop K ins true rest (batch ++ [p])).2 := by
        simp only [saveLoop, hfull, ↓reduceIte]
      rw [hev, hst]
      refine ⟨?_, ?_, ?_, ?_⟩
      · intro pre hpre
        rcases prefix_append_cases _ _ _ hpre with h | ⟨t, rfl, ht⟩
        · rw [List.prefix_cons_iff] at h
          rcases h with rfl | ⟨t, rfl, ht⟩
          · simp [persisted, inserts, counter, received]
          · rw [List.prefix_cons_iff] at ht
            rcases ht with rfl | ⟨u, rfl, hu⟩
            · simp [persisted, inserts, counter, received]
            · have : u = [] := List.prefix_nil.1 hu
              subst this
              rw [hc2, hr2, hp2]
              omega
        · obtain ⟨g1, g2, g3⟩ := ih1 t ht
          rw [counter_append, received_append, persisted_append, hc2, hr2, hp2]
          rw [hlen1] at g1
          omega
      · rw [counter_append, hc2, ih2, List.length_cons]
        omega
      · rw [received_append, hr2, ih3, List.length_cons]
        omega
      · rw [persisted_append, hp2, List.length_cons]
        rw [hlen1] at ih4
        omega

theorem save_eq (N : Nat) (outputs : List Prediction) (bar : Bool) :
    save N outputs bar =
      [Event.begin, Event.prepare (sql (batchSize N))] ++
        ((saveLoop (batchSize N) (sql (batchSize N)) bar outputs []).1 ++
          ((if (saveLoop (batchSize N) (sql (batchSize N)) bar outputs []).2.length > 0 then
              Event.prepare
                  (sql (saveLoop (batchSize N) (sql (batchSize N)) bar outputs []).2.length)
                :: flush (sql (saveLoop (batchSize N) (sql (batchSize N)) bar outputs []).2.length)
                    (saveLoop (batchSize N) (sql (batchSize N)) bar outputs []).2
            else []) ++ [Event.commit])) := by
  unfold save
  simp only [List.append_assoc]

theorem final_flush_counts (last : List Prediction) :
    counter ((if last.length > 0 then
        Event.prepare (sql last.length) :: flush (sql last.length) last else [])
        ++ [Event.commit]) = 0 ∧
    received ((if last.length > 0 then
        Event.prepare (sql last.length) :: flush (sql last.length) last else [])
        ++ [Event.commit]) = 0 ∧
    persisted ((if last.length > 0 then
        Event.prepare (sql last.length) :: flush (sql last.length) last else [])
        ++ [Event.commit]) = last.length := by
  by_cases h : last.length > 0
  · rw [if_pos h]
    refine ⟨rfl, rfl, ?_⟩
    rw [persisted_append]
    have : persisted (Event.prepare (sql last.length) :: flush (sql last.length) last)
        = persisted (flush (sql last.length) last) := rfl
    rw [this, persisted_flush]
    rfl
  · rw [if_neg h]
    refine ⟨rfl, rfl, ?_⟩
    have : last.length = 0 := by omega
    rw [this]
    rfl

/-- C9, the claim as the specification states it, refuted on the code: with a
backlog of two statements the counter is `1` after the first prediction is
received, when no row has been passed to an insert yet. -/
theorem progress_counter_not_after_flush :
    ¬ ∀ pre, pre <+: save 2 [⟨1, 1, 1, [], [], none⟩, ⟨2, 1, 1, [], [], none⟩] true →
        counter pre ≤ persisted pre := by
  intro h
  have h4 := h ((save 2 [⟨1, 1, 1, [], [], none⟩, ⟨2, 1, 1, [], [], none⟩] true).take 4)
    (List.take_prefix _ _)
  revert h4
  decide

/-- C9, amended: with the progress bar on and a backlog of `N >= 1`
statements, the counter increments once per received prediction, right after
the receipt and before the batch holding it is flushed. At every point of the
writer's run the rows already passed to an insert are at most the counter, the
counter is the number of predictions received or one less, and at the end of
the run the counter and the rows inserted both equal the number of
predictions received. -/
theorem progress_counter_counts_received (N : Nat) (hN : 1 ≤ N)
    (outputs : List Prediction) :
    (∀ pre, pre <+: save N outputs true →
      persisted pre ≤ counter pre ∧ counter pre ≤ received pre ∧
        received pre ≤ counter pre + 1) ∧
    counter (save N outputs true) = outputs.length ∧
    persisted (save N outputs true) = outputs.length := by
  have hK := batchSize_pos N hN
  obtain ⟨l1, l2, l3, l4⟩ :=
    saveLoop_progress (batchSize N) hK (sql (batchSize N)) outputs [] hK
  obtain ⟨f1, f2, f3⟩ :=
    final_flush_counts (saveLoop (batchSize N) (sql (batchSize N)) true outputs []).2
  have hc0 : counter [Event.begin, Event.prepare (sql (batchSize N))] = 0 := rfl
  have hr0 : received [Event.begin, Event.prepare (sql (batchSize N))] = 0 := rfl
  have hp0 : persisted [Event.begin, Event.prepare (sql (batchSize N))] = 0 := rfl
  simp only [List.length_nil] at l1 l4
  rw [save_eq]
  refine ⟨?_, ?_, ?_⟩
  · intro pre hpre
    rcases prefix_append_cases _ _ _ hpre with h | ⟨t, rfl, ht⟩
    · have h1 := counter_mono _ _ h
      have h2 := received_mono _ _ h
      have h3 := persisted_mono _ _ h
      omega
    · rw [counter_append, received_append, persisted_append, hc0, hr0, hp0]
      rcases prefix_append_cases _ _ _ ht with h | ⟨u, rfl, hu⟩
      · have := l1 t h
        omega
      · have h1 := counter_mono _ _ hu
        have h2 := received_mono _ _ hu
        have h3 := persisted_mono _ _ hu
        rw [counter_append, received_append, persisted_append]
        omega
  · rw [counter_append, counter_append, hc0, l2, f1]
    omega
  · rw [persisted_append, persisted_append, hp0, f3]
    omega

theorem progress_counter_counts_received_witness :
    (∀ pre, pre <+: save 2 [⟨1, 1, 1, [], [], none⟩, ⟨2, 1, 1, [], [], none⟩] true →
      persisted pre ≤ counter pre ∧ counter pre ≤ received pre ∧
        received pre ≤ counter pre + 1) ∧
    counter (save 2 [⟨1, 1, 1, [], [], none⟩, ⟨2, 1, 1, [], [], none⟩] true)
      = ([⟨1, 1, 1, [], [], none⟩, ⟨2, 1, 1, [], [], none⟩] : List Prediction).length ∧
    persisted (save 2 [⟨1, 1, 1, [], [], none⟩, ⟨2, 1, 1, [], [], none⟩] true)
      = ([⟨1, 1, 1, [], [], none⟩, ⟨2, 1, 1, [], [], none⟩] : List Prediction).length :=
  progress_counter_counts_received 2 (by decide) _

/-! ## Two-phase shutdown of `bulkPredict` -/

theorem Inv_start (W : Nat) (statements : List corpus.Statement) :
    Inv W (start W statements) where
  len := by simp [start]
  cd := by simp [start]
  tok := by
    simp only [start, List.length_nil, Nat.add_zero]
    symm
    rw [List.countP_eq_zero]
    intro a ha
    rw [(List.mem_replicate.1 ha).2]
    simp [isExited]
  doneClosed := by simp [start]
  outputsClosed := by simp [start]
  counted := by simp [start]
  emitted := by simp [start]
  feeding := by simp [start]
  noLateSend := rfl
  noSendOnClosed := rfl
  noChanPanic := rfl

theorem stepFeeder_inv (W : Nat) (s s1 : Pipeline) (hI : Inv W s)
    (h : stepFeeder W s = some s1) : Inv W s1 := by
  unfold stepFeeder at h
  split at h
  · cases h
  · rename_i hf
    have hc := hI.feeding _ hf
    rw [hc] at h
    simp only [Bool.false_eq_true, ↓reduceIte, Option.some.injEq] at h
    subst h
    exact { len := hI.len, cd := hI.cd, tok := hI.tok, doneClosed := hI.doneClosed,
            outputsClosed := hI.outputsClosed, counted := hI.counted, emitted := hI.emitted,
            feeding := (by intro l hl; cases hl),
            noLateSend := hI.noLateSend, noSendOnClosed := hI.noSendOnClosed,
            noChanPanic := hI.noChanPanic }
  · rename_i statement rest hf
    have hc := hI.feeding _ hf
    rw [hc] at h
    simp only [Bool.false_eq_true, ↓reduceIte] at h
    split at h
    · cases h
      exact { len := hI.len, cd := hI.cd, tok := hI.tok, doneClosed := hI.doneClosed,
              outputsClosed := hI.outputsClosed, counted := hI.counted,
              emitted := hI.emitted, feeding := fun _ _ => rfl,
              noLateSend := hI.noLateSend, noSendOnClosed := hI.noSendOnClosed,
              noChanPanic := hI.noChanPanic }
    · cases h

theorem stepWriter_inv (W : Nat) (s s1 : Pipeline) (hI : Inv W s)
    (h : stepWriter s = some s1) : Inv W s1 := by
  unfold stepWriter at h
  split at h
  · cases h
  · split at h
    · cases h
      exact { len := hI.len, cd := hI.cd, tok := hI.tok, doneClosed := hI.doneClosed,
              outputsClosed := hI.outputsClosed, counted := hI.counted,
              emitted := hI.emitted, feeding := hI.feeding,
              noLateSend := hI.noLateSend, noSendOnClosed := hI.noSendOnClosed,
              noChanPanic := hI.noChanPanic }
    · split at h
      · cases h
        exact { len := hI.len, cd := hI.cd, tok := hI.tok, doneClosed := hI.doneClosed,
                outputsClosed := hI.outputsClosed, counted := hI.counted,
                emitted := hI.emitted, feeding := hI.feeding,
                noLateSend := hI.noLateSend, noSendOnClosed := hI.noSendOnClosed,
                noChanPanic := hI.noChanPanic }
      · cases h

theorem tokens_le (W : Nat) (s : Pipeline) (hI : Inv W s) :
    s.tokens + s.done.length ≤ W := by
  rw [hI.tok, ← hI.len]
  exact List.countP_le_length _

theorem stepCoordinator_inv (W : Nat) (s s1 : Pipeline) (hI : Inv W s)
    (h : stepCoordinator s = some s1) : Inv W s1 := by
  unfold stepCoordinator at h
  split at h
  · rename_i hc
    split at h
    · rename_i t rest hd
      simp only [Option.some.injEq] at h
      subst h
      have hle := tokens_le W s hI
      have htok := hI.tok
      have hcd := hI.cd
      rw [hd] at hle htok
      simp only [List.length_cons] at hle htok
      refine { len := hI.len, cd := ?_, tok := ?_, doneClosed := ?_, outputsClosed := ?_,
               counted := ?_, emitted := hI.emitted, feeding := hI.feeding,
               noLateSend := hI.noLateSend, noSendOnClosed := hI.noSendOnClosed,
               noChanPanic := hI.noChanPanic }
      · show s.countDown - 1 = (W : Int) - ((s.tokens + 1 : Nat) : Int)
        rw [hcd]
        push_cast
        omega
      · show s.tokens + 1 + rest.length = s.workers.countP isExited
        omega
      · intro hdc
        have := hI.doneClosed hdc
        rw [hc] at this
        rcases this with h | h <;> cases h
      · intro hoc
        have := hI.outputsClosed hoc
        rw [hc] at this
        cases this
      · show (if s.countDown - 1 ≤ 0 then CoordPc.closeDone else CoordPc.recvDone)
            ≠ CoordPc.recvDone → s.tokens + 1 = W
        intro hne
        by_cases hle0 : s.countDown - 1 ≤ 0
        · rw [hcd] at hle0
          omega
        · rw [if_neg hle0] at hne
          exact absurd rfl hne
    · split at h
      · rename_i hdc
        have := hI.doneClosed hdc
        rw [hc] at this
        rcases this with h | h <;> cases h
      · cases h
  · rename_i hc
    have htokW := hI.counted (by rw [hc]; decide)
    split at h
    · rename_i hdc
      have := hI.doneClosed hdc
      rw [hc] at this
      rcases this with h | h <;> cases h
    · cases h
      exact { len := hI.len, cd := hI.cd, tok := hI.tok,
              doneClosed := fun _ => Or.inl rfl,
              outputsClosed := (by
                intro hoc
                have := hI.outputsClosed hoc
                rw [hc] at this
                cases this),
              counted := fun _ => htokW,
              emitted := hI.emitted, feeding := hI.feeding,
              noLateSend := hI.noLateSend, noSendOnClosed := hI.noSendOnClosed,
              noChanPanic := hI.noChanPanic }
  · rename_i hc
    have htokW := hI.counted (by rw [hc]; decide)
    split at h
    · rename_i hoc
      have := hI.outputsClosed hoc
      rw [hc] at this
      cases this
    · cases h
      exact { len := hI.len, cd := hI.cd, tok := hI.tok,
              doneClosed := fun _ => Or.inr rfl,
              outputsClosed := fun _ => rfl,
              counted := fun _ => htokW,
              emitted := hI.emitted, feeding := hI.feeding,
              noLateSend := hI.noLateSend, noSendOnClosed := hI.noSendOnClosed,
              noChanPanic := hI.noChanPanic }
  · cases h

theorem countP_set (l : List WorkerPc) (i : Nat) (a b : WorkerPc) (h : l[i]? = some a) :
    (l.set i b).countP isExited + (if isExited a = true then 1 else 0)
      = l.countP isExited + (if isExited b = true then 1 else 0) := by
  induction l generalizing i with
  | nil => simp at h
  | cons x l ih =>
    cases i with
    | zero =>
      simp only [List.getElem?_cons_zero, Option.some.injEq] at h
      subst h
      simp only [List.set_cons_zero, List.countP_cons]
      omega
    | succ i =>
      simp only [List.getElem?_cons_succ] at h
      have := ih i h
      simp only [List.set_cons_succ, List.countP_cons]
      omega

theorem countP_lt_of_active (l : List WorkerPc) (i : Nat) (a : WorkerPc)
    (h : l[i]? = some a) (ha : isExited a = false) : l.countP isExited < l.length := by
  rcases Nat.lt_or_ge (l.countP isExited) l.length with hlt | hge
  · exact hlt
  · have heq : l.countP isExited = l.length := Nat.le_antisymm (List.countP_le_length _) hge
    rw [List.countP_eq_length] at heq
    have := heq a (List.getElem?_mem h)
    rw [ha] at this
    cases this

/-- While some worker has not returned, the coordinator is still counting and
neither `done` nor `outputs` is closed. -/
theorem open_of_active (W : Nat) (s : Pipeline) (hI : Inv W s) (id : Nat) (a : WorkerPc)
    (h : s.workers[id]? = some a) (ha : isExited a = false) :
    s.coord = CoordPc.recvDone ∧ s.doneClosed = false ∧ s.outputsClosed = false := by
  have hlt := countP_lt_of_active _ _ _ h ha
  rw [← hI.tok, hI.len] at hlt
  have hco : s.coord = CoordPc.recvDone := by
    by_contra hne
    have := hI.counted hne
    omega
  refine ⟨hco, ?_, ?_⟩
  · cases hd : s.doneClosed with
    | false => rfl
    | true =>
      have := hI.doneClosed hd
      rw [hco] at this
      rcases this with h | h <;> cases h
  · cases ho : s.outputsClosed with
    | false => rfl
    | true =>
      have := hI.outputsClosed ho
      rw [hco] at this
      cases this

theorem not_emitted_of_active (W : Nat) (s : Pipeline) (hI : Inv W s) (id : Nat)
    (a : WorkerPc) (h : s.workers[id]? = some a) (ha : isExited a = false) :
    id ∉ s.emitted := by
  intro hmem
  have := hI.emitted id hmem
  rw [h] at this
  cases this
  simp [isExited] at ha

/-- A worker that has not returned moves to a program counter other than
`exited`, and the coordinator's variables stay as they are. -/
theorem Inv_worker_move (W : Nat) (s s1 : Pipeline) (id : Nat) (a b : WorkerPc)
    (hI : Inv W s) (ha : s.workers[id]? = some a) (hw : s1.workers = s.workers.set id b)
    (hna : isExited a = false) (hnb : isExited b = false)
    (hcd : s1.countDown = s.countDown) (htok : s1.tokens = s.tokens)
    (hdone : s1.done = s.done) (hdc : s1.doneClosed = s.doneClosed)
    (hoc : s1.outputsClosed = s.outputsClosed) (hco : s1.coord = s.coord)
    (hem : s1.emitted = s.emitted) (hf : s1.feeder = s.feeder)
    (hic : s1.inputsClosed = s.inputsClosed) (h1 : s1.sentAfterToken = false)
    (h2 : s1.sentOnClosedOutputs = false) (h3 : s1.chanPanic = false) : Inv W s1 where
  len := by rw [hw, List.length_set]; exact hI.len
  cd := by rw [hcd, htok]; exact hI.cd
  tok := by
    have := countP_set s.workers id a b ha
    rw [hna, hnb] at this
    simp only [Bool.false_eq_true, ↓reduceIte, Nat.add_zero] at this
    rw [htok, hdone, hw, this]
    exact hI.tok
  doneClosed := by rw [hdc, hco]; exact hI.doneClosed
  outputsClosed := by rw [hoc, hco]; exact hI.outputsClosed
  counted := by rw [hco, htok]; exact hI.counted
  emitted := by
    intro j hj
    rw [hem] at hj
    have hne : id ≠ j := by
      rintro rfl
      exact not_emitted_of_active W s hI id a ha hna hj
    rw [hw, List.getElem?_set_ne hne]
    exact hI.emitted j hj
  feeding := by rw [hf, hic]; exact hI.feeding
  noLateSend := h1
  noSendOnClosed := h2
  noChanPanic := h3

theorem stepWorker_inv (W N : Nat) (oracle : corpus.Statement → Option Prediction)
    (id : Nat) (s s1 : Pipeline) (hI : Inv W s)
    (h : stepWorker W N oracle id s = some s1) : Inv W s1 := by
  unfold stepWorker at h
  split at h
  · cases h
  · rename_i hpc
    split at h
    · cases h
      exact Inv_worker_move W s _ id _ _ hI hpc rfl rfl rfl rfl rfl rfl rfl rfl rfl rfl rfl rfl
        hI.noLateSend hI.noSendOnClosed hI.noChanPanic
    · split at h
      · cases h
        exact Inv_worker_move W s _ id _ _ hI hpc rfl rfl rfl rfl rfl rfl rfl rfl rfl rfl rfl
          rfl hI.noLateSend hI.noSendOnClosed hI.noChanPanic
      · cases h
  · rename_i statement hpc
    split at h
    · cases h
      exact Inv_worker_move W s _ id _ _ hI hpc rfl rfl rfl rfl rfl rfl rfl rfl rfl rfl rfl rfl
        hI.noLateSend hI.noSendOnClosed hI.noChanPanic
    · cases h
      exact Inv_worker_move W s _ id _ _ hI hpc rfl rfl rfl rfl rfl rfl rfl rfl rfl rfl rfl rfl
        hI.noLateSend hI.noSendOnClosed hI.noChanPanic
  · rename_i prediction hpc
    obtain ⟨_, _, hoc⟩ := open_of_active W s hI id _ hpc rfl
    rw [hoc] at h
    simp only [Bool.false_eq_true, ↓reduceIte] at h
    split at h
    · cases h
      refine Inv_worker_move W s _ id _ _ hI hpc rfl rfl rfl rfl rfl rfl rfl hoc.symm rfl rfl rfl
        rfl ?_ hI.noSendOnClosed hI.noChanPanic
      have hnot := not_emitted_of_active W s hI id _ hpc rfl
      show (s.sentAfterToken || decide (id ∈ s.emitted)) = false
      rw [hI.noLateSend]
      simp [hnot]
    · cases h
  · rename_i hpc
    obtain ⟨hco, hdc, hoc⟩ := open_of_active W s hI id _ hpc rfl
    rw [hdc] at h
    simp only [Bool.false_eq_true, ↓reduceIte] at h
    split at h
    · cases h
      have hlt : id < s.workers.length := by
        rcases Nat.lt_or_ge id s.workers.length with hlt | hge
        · exact hlt
        · rw [List.getElem?_eq_none hge] at hpc
          cases hpc
      refine { len := ?_, cd := hI.cd, tok := ?_, doneClosed := ?_, outputsClosed := ?_,
               counted := hI.counted, emitted := ?_, feeding := hI.feeding,
               noLateSend := hI.noLateSend, noSendOnClosed := hI.noSendOnClosed,
               noChanPanic := hI.noChanPanic }
      · show (s.workers.set id WorkerPc.exited).length = W
        rw [List.length_set]
        exact hI.len
      · show s.tokens + (s.done ++ [id]).length
            = (s.workers.set id WorkerPc.exited).countP isExited
        have := countP_set s.workers id _ WorkerPc.exited hpc
        simp only [isExited, Bool.false_eq_true, ↓reduceIte, Nat.add_zero] at this
        rw [this, List.length_append, List.length_singleton, ← hI.tok]
        omega
      · intro hd
        cases hd
      · intro ho
        exact hI.outputsClosed ho
      · intro j hj
        show (s.workers.set id WorkerPc.exited)[j]? = some WorkerPc.exited
        have hj' : j ∈ s.emitted ++ [id] := hj
        rw [List.mem_append, List.mem_singleton] at hj'
        by_cases hji : id = j
        · subst hji
          rw [List.getElem?_set_self hlt]
        · rw [List.getElem?_set_ne hji]
          rcases hj' with hj' | hj'
          · exact hI.emitted j hj'
          · exact absurd hj'.symm hji
    · cases h
  · cases h
  · cases h

theorem step_inv (W N : Nat) (oracle : corpus.Statement → Option Prediction) (a : Action)
    (s s1 : Pipeline) (hI : Inv W s) (h : step W N oracle a s = some s1) : Inv W s1 := by
  cases a with
  | feeder => exact stepFeeder_inv W s s1 hI h
  | worker id => exact stepWorker_inv W N oracle id s s1 hI h
  | coordinator => exact stepCoordinator_inv W s s1 hI h
  | writer => exact stepWriter_inv W s s1 hI h

theorem run_inv (W N : Nat) (oracle : corpus.Statement → Option Prediction) :
    ∀ (sched : List Action) (s s1 : Pipeline), Inv W s →
      run W N oracle sched s = some s1 → Inv W s1 := by
  intro sched
  induction sched with
  | nil =>
    intro s s1 hI h
    simp only [run, Option.some.injEq] at h
    subst h
    exact hI
  | cons a sched ih =>
    intro s s1 hI h
    unfold run at h
    split at h
    · cases h
    · rename_i s2 hs2
      exact ih s2 s1 (step_inv W N oracle a s s2 hI hs2) h

/-- C10: two-phase shutdown safety. Under every schedule of the feeder, the
`nRoutines` workers, the coordinator and the writer, in every state the run
reaches: if `outputs` is closed then the coordinator has received all
`nRoutines` completion tokens (and has returned); every worker that has sent
its token has returned, and no worker sent to `outputs` after sending its
token; and no worker sent to `outputs` when it was closed. -/
theorem two_phase_shutdown_safe (nRoutines : Nat)
    (oracle : corpus.Statement → Option Prediction) (statements : List corpus.Statement)
    (sched : List Action) (s : Pipeline)
    (h : run nRoutines statements.length oracle sched (start nRoutines statements) = some s) :
    (s.outputsClosed = true → s.tokens = nRoutines ∧ s.coord = CoordPc.exited) ∧
    (∀ id ∈ s.emitted, s.workers[id]? = some WorkerPc.exited) ∧
    s.sentAfterToken = false ∧
    s.sentOnClosedOutputs = false := by
  have hI := run_inv nRoutines statements.length oracle sched _ s
    (Inv_start nRoutines statements) h
  refine ⟨?_, hI.emitted, hI.noLateSend, hI.noSendOnClosed⟩
  intro hoc
  have hco := hI.outputsClosed hoc
  exact ⟨hI.counted (by rw [hco]; decide), hco⟩

theorem two_phase_shutdown_safe_witness :
    run 2 2 (fun st => some ⟨st.Id, 1, 2, [], [], none⟩) exampleSchedule
        (start 2 [⟨1, utf8 "select 1"⟩, ⟨2, utf8 "selec 2"⟩]) = some exampleFinal ∧
    exampleFinal.outputsClosed = true ∧
    ((exampleFinal.outputsClosed = true →
        exampleFinal.tokens = 2 ∧ exampleFinal.coord = CoordPc.exited) ∧
      (∀ id ∈ exampleFinal.emitted, exampleFinal.workers[id]? = some WorkerPc.exited) ∧
      exampleFinal.sentAfterToken = false ∧
      exampleFinal.sentOnClosedOutputs = false) :=
  ⟨rfl, rfl,
    two_phase_shutdown_safe 2 (fun st => some ⟨st.Id, 1, 2, [], [], none⟩)
      [⟨1, utf8 "select 1"⟩, ⟨2, utf8 "selec 2"⟩] exampleSchedule exampleFinal rfl⟩

end predict

/-! ## The worker count of `bulkPredict`: its lower bound -/

namespace predict

/-- With no override, or with an override whose value is below `2^63`, the
worker count is at least `1`. -/
theorem nRoutines_pos_of_small_override (P N : Int) (hP : 1 ≤ P) :
    1 ≤ nRoutines P N none ∧
    ∀ p : Nat, p < 2 ^ 63 → 1 ≤ nRoutines P N (some p) := by
  have hnone : 1 ≤ nRoutines P N none := by
    unfold nRoutines
    simp only
    split_ifs <;> omega
  refine ⟨hnone, ?_⟩
  intro p hp
  have h : p % 2 ^ 64 = p := Nat.mod_eq_of_lt (by omega)
  have hdef : nRoutines P N (some p) =
      if p > 0 ∧ (p : Int) < 3 * P then (p : Int) else nRoutines P N none := by
    simp only [nRoutines, intOfUint_small p hp, h]
  rw [hdef]
  split_ifs with hc
  · omega
  · exact hnone

/-- C11, the code at the failing input: with one CPU, a backlog of one
statement and the flag value `2^64 - 1`, the largest `uint`, the conversion to
`int` wraps to `-1`, which is below `3*1`, so the override is applied and the
worker count is `-1`, not at least `1`; without the override it is `1`. -/
theorem worker_count_below_one_for_wrapped_override :
    initParallelism (2 ^ 64 - 1) = some 18446744073709551615 ∧
    intOfUint (2 ^ 64 - 1) = -1 ∧
    nRoutines 1 1 (initParallelism (2 ^ 64 - 1)) = -1 ∧
    ¬ (1 ≤ nRoutines 1 1 (initParallelism (2 ^ 64 - 1))) ∧
    nRoutines 1 1 none = 1 := by
  decide

end predict

/-! ## Reading the statements of a language -/

namespace corpus

theorem scanRows_eq (rows : List ScannedRow) (results : List Statement) :
    scanRows rows results
      = results ++ (rows.filter (fun r => r.err.isSome)).map (fun r => r.row) := by
  induction rows generalizing results with
  | nil => simp [scanRows]
  | cons r rest ih =>
    cases h : r.err with
    | none => simp [scanRows, h, ih]
    | some e => simp [scanRows, h, ih]

/-- What the code returns: the rows whose `Scan` returned an error, in row
order; when every `Scan` succeeds the result is empty. -/
theorem GetStatementsByLanguage_eq (query : GoString → Option (List ScannedRow))
    (language : GoString) (rows : List ScannedRow) (h : query language = some rows) :
    GetStatementsByLanguage query language
        = some ((rows.filter (fun r => r.err.isSome)).map (fun r => r.row)) ∧
    ((∀ r ∈ rows, r.err = none) → GetStatementsByLanguage query language = some []) := by
  have h1 : GetStatementsByLanguage query language
      = some ((rows.filter (fun r => r.err.isSome)).map (fun r => r.row)) := by
    unfold GetStatementsByLanguage
    rw [h]
    simp only [scanRows_eq, List.nil_append]
  refine ⟨h1, ?_⟩
  intro hall
  rw [h1]
  have : rows.filter (fun r => r.err.isSome) = [] := by
    rw [List.filter_eq_nil_iff]
    intro r hr
    rw [hall r hr]
    simp
  rw [this]
  rfl

/-- C12, the code at the failing input: the query yields a first row whose
`Scan` succeeds with `Id = 1`, `Text = "select 1"` and a second row whose
`Scan` fails, leaving `row` at its zero value. The claim asks for the one
statement `(1, "select 1")`; the code returns the zero statement of the
failed row and drops the scanned one, and for the first row alone it returns
no entry where the claim asks for as many entries as rows. -/
theorem GetStatementsByLanguage_keeps_failed_rows :
    GetStatementsByLanguage
        (fun _ => some [⟨⟨1, utf8 "select 1"⟩, none⟩,
                        ⟨⟨0, []⟩, some (utf8 "sql: Scan error on column index 0")⟩])
        (utf8 "pgsql") = some [⟨0, []⟩] ∧
    specStatements [⟨⟨1, utf8 "select 1"⟩, none⟩,
                    ⟨⟨0, []⟩, some (utf8 "sql: Scan error on column index 0")⟩]
      = [⟨1, utf8 "select 1"⟩] ∧
    GetStatementsByLanguage (fun _ => some [⟨⟨1, utf8 "select 1"⟩, none⟩]) (utf8 "pgsql")
      = some [] := by
  decide

end corpus
